import Mathlib

/-!
# Verification of the Mantic structural code-search engine

Shallow embedding of the parts of the Mantic source (TypeScript) that the
specification claims talk about: the file classifier, the brain-inspired
structural scorer (`rankFiles`), the intent analyser's category selection,
the incremental cache diff (`getStaleFiles`), the impact analyser, the
session manager, the smart filter (`search`) and the scan pipeline's
context-carryover and timeout behaviour.

Conventions used throughout:
* JavaScript numbers are modelled as `ℚ` (scores, weights) or `ℤ`
  (timestamps, sizes); all arithmetic in the embedded code paths is exact.
* JavaScript strings are Lean `String`s; the JS string operations used by
  the source (`toLowerCase`, `includes`, `split`, `replace`, `endsWith`,
  Node's `path.basename` / `path.extname`, word-boundary regex tests on
  literal keywords) are re-implemented below for the ASCII inputs the
  program manipulates.
* JavaScript `Map`s keyed by path are modelled as association lists in
  insertion order; `Set`s as lists used only through membership.
* I/O results (file stats, file contents, git output, clocks) enter as
  explicit parameters ("oracles"), matching the data the source reads.
-/

/-- Lowercase a single ASCII character (JS `toLowerCase` restricted to
the ASCII range actually manipulated by the program). -/
def lowerChar (c : Char) : Char :=
  if 'A' ≤ c ∧ c ≤ 'Z' then Char.ofNat (c.toNat + 32) else c

/-- JS `String.prototype.toLowerCase` on ASCII strings. -/
def jsLower (s : String) : String :=
  String.mk (s.data.map lowerChar)

/-- Does `needle` occur as a contiguous sublist of the character list? -/
def listIncl (needle : List Char) : List Char → Bool
  | [] => needle.isEmpty
  | c :: t => needle.isPrefixOf (c :: t) || listIncl needle t

/-- JS `hay.includes(needle)` for strings. -/
def jsIncludes (hay needle : String) : Bool :=
  listIncl needle.data hay.data

/-- JS `s.startsWith(pre)`. -/
def jsStartsWith (s pre : String) : Bool :=
  pre.data.isPrefixOf s.data

/-- JS `s.endsWith(suf)`. -/
def jsEndsWith (s suf : String) : Bool :=
  suf.data.isSuffixOf s.data

/-- Split a character list at every occurrence of `sep`
(JS `s.split(sep)` semantics: always at least one field, empty fields
kept). -/
def splitChar (sep : Char) : List Char → List (List Char)
  | [] => [[]]
  | c :: t =>
    let r := splitChar sep t
    if c = sep then [] :: r
    else
      match r with
      | h :: t2 => (c :: h) :: t2
      | [] => [[c]]

/-- Node `path.basename(p)` for the forward-slash relative paths the
program uses (no trailing-slash or drive-letter handling needed). -/
def pathBasename (p : String) : String :=
  String.mk ((splitChar '/' p.data).getLastD [])

/-- Index (from the front) of the last `'.'` in a character list, if any. -/
def lastDotIdx (l : List Char) : Option ℕ :=
  let back := l.reverse.takeWhile (fun c => c ≠ '.')
  if back.length = l.length then none else some (l.length - back.length - 1)

/-- Node `path.extname(p)`: extension from the last dot of the basename;
empty when there is no dot, when the dot is the basename's first
character (`.gitignore`), or for the special basename `".."`. -/
def pathExtname (p : String) : String :=
  let b := (splitChar '/' p.data).getLastD []
  if b = ['.', '.'] then "" else
  match lastDotIdx b with
  | none => ""
  | some i => if i = 0 then "" else String.mk (b.drop i)

/-- Node `path.basename(p, ext)`: basename with the suffix `ext`
stripped when present (as in the source, `ext` is always
`path.extname(p)` here, so it is a genuine suffix whenever nonempty). -/
def pathBasenameExt (p ext : String) : String :=
  let b := pathBasename p
  if ext ≠ "" ∧ b ≠ ext ∧ jsEndsWith b ext then
    String.mk (b.data.take (b.data.length - ext.data.length))
  else b

/-- JS `s.replace(target, repl)` with a string pattern: replace the
first occurrence only. -/
def replaceFirstL (target repl : List Char) : List Char → List Char
  | [] => if target.isEmpty then repl else []
  | c :: t =>
    if target.isPrefixOf (c :: t) then repl ++ (c :: t).drop target.length
    else c :: replaceFirstL target repl t

/-- JS `s.replace(target, repl)` on strings (first occurrence). -/
def jsReplaceFirst (s target repl : String) : String :=
  String.mk (replaceFirstL target.data repl.data s.data)

/-- JS regex word character (`\w`): ASCII letter, digit or underscore. -/
def isWordChar (c : Char) : Bool :=
  c.isAlpha || c.isDigit || c = '_'

/-- Is there a word boundary (`\b`) between the two optional characters? -/
def boundaryB (a b : Option Char) : Bool :=
  ((a.map isWordChar).getD false) != ((b.map isWordChar).getD false)

/-- Does `\b kw \b` match at the current position (with `prev` the
character immediately before the position)? -/
def wbHere (kw : List Char) (prev : Option Char) (s : List Char) : Bool :=
  kw.isPrefixOf s && boundaryB prev s.head? &&
    boundaryB (if kw.isEmpty then prev else kw.getLast?) (s.drop kw.length).head?

/-- Scan `s` for a `\b kw \b` match, tracking the previous character. -/
def wbSearch (kw : List Char) (prev : Option Char) (s : List Char) : Bool :=
  wbHere kw prev s ||
    match s with
    | [] => false
    | c :: t => wbSearch kw (some c) t

/-- JS `new RegExp("\\b" + kw + "\\b").test(s)` for keywords made of
word characters (the only ones the program builds such regexes from). -/
def wbTest (kw s : String) : Bool :=
  wbSearch kw.data none s.data

/-- JS `s.replace(/[-_]/g, ' ')`. -/
def dashUnderscoreToSpace (s : String) : String :=
  String.mk (s.data.map (fun c => if c = '-' ∨ c = '_' then ' ' else c))

/-- Three-way comparison of `ℕ` lists, lexicographic with shorter
prefixes first (the comparison backbone for collation keys and byte
order). -/
def cmpNatList : List ℕ → List ℕ → Ordering
  | [], [] => .eq
  | [], _ :: _ => .lt
  | _ :: _, [] => .gt
  | a :: as, b :: bs =>
    if a < b then .lt else if b < a then .gt else cmpNatList as bs

/-! ## File classifier (`src/file-classifier.ts`) -/

/-- File type tags from `src/types.ts`. -/
inductive FileType where
  | generated | test | docs | config | code | other
deriving DecidableEq, Repr

/-- The `GENERATED_PATTERNS` of `classifyFile` (case-sensitive regexes over
literal fragments, expressed as suffix / substring tests). -/
def generatedHit (p : String) : Bool :=
  jsEndsWith p ".lock" || jsEndsWith p ".log" || jsEndsWith p ".map" ||
  jsIncludes p "/dist/" || jsIncludes p "/build/" || jsIncludes p "/.next/" ||
  jsIncludes p "/.cache/" || jsIncludes p "/coverage/" ||
  jsIncludes p "/node_modules/" ||
  jsEndsWith p ".min.js" || jsEndsWith p ".min.css" ||
  jsIncludes p ".generated." || jsEndsWith p ".d.ts"

/-- The `TEST_PATTERNS` of `classifyFile` (all case-insensitive, so tested on
the lowercased path). -/
def testHit (p : String) : Bool :=
  let q := jsLower p
  jsIncludes q "/test/" || jsIncludes q "/tests/" || jsIncludes q "/e2e/" ||
  jsIncludes q "/__tests__/" || jsIncludes q "/playwright/" ||
  jsIncludes q "/cypress/" || jsIncludes q ".test." || jsIncludes q ".spec." ||
  jsIncludes q ".e2e." || jsIncludes q "/__mocks__/" || jsIncludes q "/.storybook/"

/-- The `DOCS_PATTERNS` of `classifyFile` (all case-insensitive). -/
def docsHit (p : String) : Bool :=
  let q := jsLower p
  jsIncludes q "/doc/" || jsIncludes q "/docs/" || jsIncludes q "/documentation/" ||
  jsEndsWith q ".md" || jsEndsWith q ".mdx" ||
  jsIncludes q "readme" || jsIncludes q "changelog" || jsIncludes q "license"

/-- The `CONFIG_PATTERNS` of `classifyFile` (case-sensitive). -/
def configHit (p : String) : Bool :=
  jsEndsWith p "package.json" || jsEndsWith p "tsconfig.json" ||
  jsIncludes p ".eslintrc" || jsIncludes p ".prettierrc" ||
  jsEndsWith p ".config.js" || jsEndsWith p ".config.ts" || jsEndsWith p ".config.mjs" ||
  jsEndsWith p ".yml" || jsEndsWith p ".yaml" || jsEndsWith p ".toml" ||
  jsIncludes p ".env" || jsIncludes p "Dockerfile" || jsIncludes p "docker-compose" ||
  jsEndsWith p ".gitignore" || jsEndsWith p ".editorconfig"

/-- The `CODE_EXTENSIONS` of the file classifier. -/
def codeExtensions : List String :=
  [".ts", ".tsx", ".js", ".jsx", ".mjs", ".py", ".java", ".go", ".rs", ".c",
   ".cpp", ".rb", ".php", ".swift", ".kt"]

/-- The `classifyFile` — pure classification of a relative path. -/
def classifyFile (p : String) : FileType :=
  if generatedHit p then .generated
  else if testHit p then .test
  else if docsHit p then .docs
  else if configHit p then .config
  else if jsLower (pathExtname p) ∈ codeExtensions then .code
  else .other

/-- The `isCanonical` — implementation or configuration file. -/
def isCanonical (p : String) : Bool :=
  classifyFile p = FileType.code || classifyFile p = FileType.config

/-- The `getBaseName` — basename with `.test/.spec/.e2e/.stories/.md`
suffixes removed, then without its final extension.  The chained JS
`replace` calls each rewrite the first occurrence of their end-anchored
regex, which (being end-anchored) is a suffix rewrite. -/
def stripOneSuffix (exts : List String) (mid : String) (b : String) : String :=
  match exts.find? (fun e => jsEndsWith b (mid ++ "." ++ e)) with
  | some e =>
    String.mk (b.data.take (b.data.length - (mid ++ "." ++ e).data.length)) ++ "." ++ e
  | none => b

/-- Remove a final `.ext` (regex `/\.[^.]+$/`): drop from the last dot
when it exists and is not the final character. -/
def dropFinalExt (b : String) : String :=
  match lastDotIdx b.data with
  | none => b
  | some i => if i + 1 = b.data.length then b else String.mk (b.data.take i)

/-- The `getBaseName` from the file classifier. -/
def getBaseName (p : String) : String :=
  let b0 := pathBasename p
  let b1 := stripOneSuffix ["ts", "tsx", "js", "jsx", "mjs"] ".test" b0
  let b2 := stripOneSuffix ["ts", "tsx", "js", "jsx", "mjs"] ".spec" b1
  let b3 := stripOneSuffix ["ts", "tsx", "js", "jsx", "mjs"] ".e2e" b2
  let b4 := stripOneSuffix ["ts", "tsx", "js", "jsx"] ".stories" b3
  let b5 := if jsEndsWith b4 ".md" then String.mk (b4.data.take (b4.data.length - 3)) else b4
  dropFinalExt b5

/-! ## Brain-inspired structural scorer (`BrainInspiredScorer`, substring
variant — the implementation the specification adopts in §4.4; its
`rankFiles` is shared verbatim with the regex variant in
`src/brain-scorer.ts`). -/

/-- Intent categories (`src/types.ts`). -/
inductive IntentCategory where
  | UI | auth | styling | performance | backend | testing | config | general
deriving DecidableEq, Repr

/-- The `INTENT_DIRECTORY_WEIGHTS` — per-category directory→weight table. -/
def intentDirectoryWeights : IntentCategory → List (String × ℚ)
  | .UI =>
    [("components/", 1), ("app/", 9/10), ("pages/", 9/10), ("ui/", 1),
     ("views/", 8/10), ("src/components/", 1), ("styles/", 3/10),
     ("lib/", 2/10), ("utils/", 1/10), ("api/", 0), ("server/", 0)]
  | .auth =>
    [("auth/", 1), ("middleware/", 8/10), ("lib/auth", 1), ("api/auth", 9/10),
     ("components/", 3/10), ("pages/", 3/10), ("server/", 5/10), ("styles/", 0)]
  | .backend =>
    [("api/", 1), ("server/", 1), ("services/", 9/10), ("lib/", 7/10),
     ("models/", 8/10), ("db/", 9/10), ("routes/", 9/10), ("packages/", 8/10),
     ("apps/", 7/10), ("features/", 9/10), ("workflows/", 9/10), ("ee/", 8/10),
     ("components/", 1/10), ("styles/", 0)]
  | .styling =>
    [("styles/", 1), ("css/", 1), ("theme/", 9/10), ("ui/", 6/10),
     ("components/", 5/10), ("lib/", 2/10), ("api/", 0), ("server/", 0)]
  | .performance =>
    [("utils/", 8/10), ("lib/", 8/10), ("hooks/", 7/10), ("middleware/", 7/10),
     ("components/", 4/10), ("api/", 5/10), ("styles/", 1/10)]
  | .testing =>
    [("tests/", 1), ("__tests__/", 1), ("test/", 1), ("e2e/", 9/10),
     ("spec/", 1), ("components/", 0), ("lib/", 0)]
  | .config =>
    [(".", 9/10), ("config/", 1), ("lib/", 3/10), ("src/", 1/10), ("components/", 0)]
  | .general =>
    [("src/", 5/10), ("lib/", 5/10), ("components/", 5/10), ("utils/", 5/10)]

/-- The `EXTENSION_WEIGHTS`. -/
def extensionWeights : List (String × ℚ) :=
  [(".ts", 1), (".tsx", 1), (".js", 9/10), (".jsx", 9/10), (".py", 1),
   (".go", 1), (".rs", 1), (".java", 8/10), (".cpp", 8/10), (".c", 8/10),
   (".h", 7/10), (".css", 3/10), (".scss", 3/10), (".json", 1/10),
   (".md", 1/20), (".mdx", 1/20), (".txt", 0), (".yml", 8/10), (".yaml", 8/10)]

/-- The `IMPORTANT_CONFIG_FILES`. -/
def importantConfigFiles : List String :=
  ["dockerfile", "makefile", "rakefile", "gemfile", "procfile", "jenkinsfile"]

/-- The `NON_IMPLEMENTATION_PATTERNS` (substring variant, lowercase literals). -/
def nonImplementationPatterns : List String :=
  ["/docs/", "/doc/", "/test/", "/tests/", "/e2e/", "/__tests__/",
   "/playwright/", "/cypress/", "/__mocks__/", "/examples/", "/storybook/",
   ".test.", ".spec.", ".e2e."]

/-- The `IMPLEMENTATION_DIRECTORY_PATTERNS` (substring variant). -/
def implementationDirectoryPatterns : List String :=
  ["/src/", "/lib/", "/module/", "/modules/", "/service/", "/services/",
   "/api/", "/server/", "/core/", "/feature/", "/features/"]

/-- The `GENERIC_FILE_PATTERNS` (substring variant). -/
def genericFilePatterns : List String :=
  ["/page.tsx", "/page.ts", "/layout.tsx", "/layout.ts", "/route.tsx",
   "/route.ts", "/index.ts", "/index.tsx", "/index.js", "/app.tsx",
   "/app.ts", "/main.ts", "/main.js"]

/-- The `BUSINESS_LOGIC_PATTERNS` (substring variant). -/
def businessLogicPatterns : List String :=
  [".service.", ".controller.", ".handler.", ".repository.", ".manager.",
   ".provider.", ".helper.", ".util.", ".utils.", ".model.", ".schema."]

/-- The `eliminateByStructure` — drop binary assets, lock/log and map files. -/
def eliminateByStructure (files : List String) : List String :=
  files.filter (fun file =>
    let ext := jsLower (pathExtname file)
    ¬ (ext ∈ [".png", ".jpg", ".gif", ".svg", ".ico", ".woff", ".ttf"]) ∧
    ¬ (jsEndsWith file ".lock" = true) ∧ ¬ (jsEndsWith file ".log" = true) ∧
    ¬ (jsEndsWith file ".map" = true))

/-- Strip a single trailing slash (JS `replace(/\/$/, '')`). -/
def stripTrailingSlash (s : String) : String :=
  if jsEndsWith s "/" then String.mk (s.data.take (s.data.length - 1)) else s

/-- The `scoreByDirectory` (substring variant): sum the weights of table
entries whose directory occurs as `/name/` inside the path or as the
`name/` path head. -/
def scoreByDirectory (filepath : String) (intent : IntentCategory) : ℚ :=
  (intentDirectoryWeights intent).foldl
    (fun score wd =>
      let dirName := stripTrailingSlash wd.1
      if jsIncludes filepath ("/" ++ dirName ++ "/") ||
         jsStartsWith filepath (dirName ++ "/")
      then score + wd.2 else score) 0

/-- Extension weight with JS `||` fallback: a stored weight of `0`
(`.txt`) is falsy, so it falls back to the `0.5` default exactly as the
source expression `EXTENSION_WEIGHTS[ext] || 0.5` does. -/
def extWeightOf (filepath : String) : ℚ :=
  let ext := jsLower (pathExtname filepath)
  let baseName := jsLower (pathBasenameExt filepath (pathExtname filepath))
  if ext = "" ∧ baseName ∈ importantConfigFiles then 1
  else
    match (extensionWeights.find? (fun w => w.1 = ext)).map Prod.snd with
    | some w => if w = 0 then 1/2 else w
    | none => 1/2

/-- Keyword contribution of `scoreUltraFast` step 2 for one keyword. -/
def keywordScore (isNonImplementation : Bool) (filename filenameNoExt normalizedName kw : String) : ℚ :=
  if filenameNoExt = kw then (if isNonImplementation then 10 else 100)
  else if jsIncludes filename kw then (if isNonImplementation then 5 else 50)
  else if wbTest kw normalizedName then (if isNonImplementation then 3 else 30)
  else 0

/-- The `scoreUltraFast` — pure scoring from path and filename only. -/
def scoreUltraFast (filepath : String) (keywords : List String)
    (intent : IntentCategory) (sessionBoosts : List (String × ℚ)) : ℚ :=
  let lowerPath := jsLower filepath
  let isNonImplementation := nonImplementationPatterns.any (jsIncludes lowerPath ·)
  let filename := jsLower (pathBasename filepath)
  let filenameNoExt := jsReplaceFirst filename (pathExtname filename) ""
  let normalizedName := dashUnderscoreToSpace filenameNoExt
  let s2 := keywords.foldl
    (fun s kw => s + keywordScore isNonImplementation filename filenameNoExt
        normalizedName (jsLower kw)) 0
  let s3 := s2 + scoreByDirectory filepath intent * 20
  let s4 := if ¬ isNonImplementation ∧
      implementationDirectoryPatterns.any (jsIncludes lowerPath ·) then s3 + 40 else s3
  let isGenericFile := genericFilePatterns.any (jsIncludes lowerPath ·)
  let isBusinessLogic := businessLogicPatterns.any (jsIncludes lowerPath ·)
  let s5 := if isBusinessLogic then s4 * (3/2)
            else if isGenericFile then s4 * (3/10) else s4
  let s6 := s5 * extWeightOf filepath
  let depth := (splitChar '/' filepath.data).length
  let s7 := s6 - (max 0 ((depth : ℚ) - 5))
  let s8 := if isCanonical filepath then s7 + 30
            else if classifyFile filepath = .test then s7 - 40
            else if classifyFile filepath = .docs then s7 - 50
            else s7
  let s9 := match (sessionBoosts.find? (fun b => b.1 = filepath)).map Prod.snd with
            | some boost => s8 + boost
            | none => s8
  max 0 s9

/-- A scored file (`FileScore` in `src/types.ts`): path, score, reasons. -/
structure FileScore where
  path : String
  score : ℚ
  reasons : List String
deriving DecidableEq, Repr

/-- JS `Map.prototype.set` on an association list: overwrite in place
when the key exists, append otherwise. -/
def mapSetAssoc {α : Type} (m : List (String × α)) (k : String) (v : α) :
    List (String × α) :=
  if m.any (fun kv => kv.1 = k) then
    m.map (fun kv => if kv.1 = k then (k, v) else kv)
  else m ++ [(k, v)]

/-- The scorer constructor folds the session-boost array into a `Map`
(later entries overwrite earlier ones). -/
def buildBoostMap (boosts : List (String × ℚ)) : List (String × ℚ) :=
  boosts.foldl (fun m b => mapSetAssoc m b.1 b.2) []

/-- Primary collation weight of an ASCII character under the ECMA-402
default (root) collation as used by `String.prototype.localeCompare`
with no arguments: letters compare case-insensitively and after digits,
digits after punctuation.  (The relative order of distinct punctuation
characters is approximated by code point; no result below depends on
it.)  All weights are positive so that `0` can serve as a separator. -/
def primWeight (c : Char) : ℕ :=
  if c.isAlpha then 1000 + (lowerChar c).toNat
  else if c.isDigit then 500 + c.toNat
  else 1 + c.toNat

/-- Tertiary (case) collation weight: lowercase before uppercase. -/
def tertWeight (c : Char) : ℕ :=
  if 'A' ≤ c ∧ c ≤ 'Z' then 1 else 0

/-- Collation key modelling `localeCompare`: the full primary pass,
a separator, then the case pass. -/
def localeKey (s : String) : List ℕ :=
  s.data.map primWeight ++ 0 :: s.data.map tertWeight

/-- The `a.localeCompare(b) ≤ 0` in the modelled root collation. -/
def localeLe (a b : String) : Bool :=
  cmpNatList (localeKey a) (localeKey b) ≠ Ordering.gt

/-- Plain byte-wise (code-point) comparison of paths — the order named
by the specification's "path ascending (lexicographic, byte-wise)". -/
abbrev byteLt (a b : String) : Prop :=
  cmpNatList (a.data.map Char.toNat) (b.data.map Char.toNat) = Ordering.lt

/-- Defined from the claim's words: ranked output ordered by score
descending with ties in byte-wise ascending path order. -/
abbrev specByteOrder (a b : FileScore) : Prop :=
  a.score > b.score ∨ (a.score = b.score ∧ byteLt a.path b.path)

/-- The comparator of `rankFiles`' final sort, as a "may come first"
relation: higher score first, ties broken by `localeCompare` ascending. -/
def rankLE (a b : FileScore) : Bool :=
  if a.score = b.score then localeLe a.path b.path else decide (b.score < a.score)

/-- Reason tags attached by `rankFiles`: purely score-threshold based. -/
def reasonsFor (score : ℚ) : List String :=
  if score > 100 then ["filename-match", "keyword-match"]
  else if score > 50 then ["keyword-match"] else []

/-- The `rankFiles` — structural elimination, `scoreUltraFast` on every
survivor keeping positive scores, sort by score descending with the
`localeCompare` tie-break (`Array.prototype.sort` is stable; a stable
insertion sort realises it), then the top 100. -/
def rankFiles (files keywords : List String) (intent : IntentCategory)
    (sessionBoosts : List (String × ℚ)) : List FileScore :=
  let boostMap := buildBoostMap sessionBoosts
  let afterStructural := eliminateByStructure files
  let scored := afterStructural.filterMap (fun file =>
    let score := scoreUltraFast file keywords intent boostMap
    if score > 0 then some ⟨file, score, reasonsFor score⟩ else none)
  (List.insertionSort (fun a b => rankLE a b = true) scored).take 100

/-! ## Intent analyser (`IntentAnalyzer.analyze`) — category selection. -/

/-- JS whitespace characters relevant to `split(/\s+/)` on the
program's ASCII queries. -/
def isWsChar (c : Char) : Bool :=
  c = ' ' ∨ c = '\t' ∨ c = '\n' ∨ c = '\r'

/-- The `prompt.split(/\s+/)`: split at maximal whitespace runs, keeping an
empty leading/trailing field when the string starts/ends with
whitespace (JS semantics).  A whitespace run contributes one field
boundary, placed at the run's final character. -/
def splitWsL : List Char → List (List Char)
  | [] => [[]]
  | c :: t =>
    let r := splitWsL t
    if isWsChar c then
      match t with
      | [] => [] :: r
      | c2 :: _ => if isWsChar c2 then r else [] :: r
    else
      match r with
      | h :: t2 => (c :: h) :: t2
      | [] => [[c]]

/-- The `split(/\s+/)` on strings. -/
def splitWs (s : String) : List String :=
  (splitWsL s.data).map String.mk

/-- Literal alternatives of each `INTENT_PATTERNS` regex (all are
alternations of literals; `sign\s*up` / `sign\s*in` degenerate to
`signup` / `signin` on the whitespace-free words being tested, and both
are already covered by the `signup`/`signin` literals). -/
def intentPatternTokens : IntentCategory → List String
  | .UI =>
    ["button", "modal", "dialog", "form", "input", "card", "menu", "dropdown",
     "component", "nav", "header", "footer", "sidebar", "screen", "page",
     "view", "onboarding", "welcome", "dashboard", "panel", "widget", "layout"]
  | .auth =>
    ["auth", "login", "signup", "signup", "signin", "user", "profile",
     "session", "password", "token", "credential"]
  | .styling =>
    ["style", "theme", "color", "dark", "light", "css", "tailwind", "rounded",
     "border", "font", "spacing", "layout", "design"]
  | .performance =>
    ["slow", "fast", "optimize", "cache", "lazy", "memo", "performance",
     "speed", "bundle", "load"]
  | .backend =>
    ["api", "endpoint", "server", "database", "query", "mutation", "fetch",
     "request", "response", "route", "booking", "reservation", "appointment",
     "confirmation", "notification", "email", "payment", "webhook", "workflow",
     "schedule", "calendar", "event", "slot", "availability", "stripe",
     "paypal", "checkout", "subscription", "invoice", "billing", "charge",
     "refund", "merchant", "transaction"]
  | .testing =>
    ["test", "spec", "jest", "vitest", "cypress", "e2e", "unit",
     "integration", "mock"]
  | .config =>
    ["config", "env", "settings", "setup", "install", "dependency",
     "package", "tsconfig"]
  | .general => []

/-- The `INTENT_PATTERNS` iteration order (object key order), with
`general` skipped as in the source loop. -/
def intentCategoriesOrder : List IntentCategory :=
  [.UI, .auth, .styling, .performance, .backend, .testing, .config]

/-- The `pattern.test(word)` — the category regex matches a (lowercased,
whitespace-free) word iff one of its literal alternatives is a
substring. -/
def wordMatchesCategory (cat : IntentCategory) (word : String) : Bool :=
  (intentPatternTokens cat).any (fun t => jsIncludes word t)

/-- The query words the category counting runs over. -/
def promptWords (prompt : String) : List String :=
  splitWs (jsLower prompt)

/-- The words of the query that match a category's pattern. -/
def matchedTokens (prompt : String) (cat : IntentCategory) : List String :=
  (promptWords prompt).filter (wordMatchesCategory cat)

/-- Per-category match count of `analyze`. -/
def matchCount (prompt : String) (cat : IntentCategory) : ℕ :=
  (matchedTokens prompt cat).length

/-- The best-category loop of `analyze`: strictly greater counts win, so
the first entry attaining the maximum is kept. -/
def bestLoop : List (IntentCategory × ℕ) → IntentCategory → ℕ → IntentCategory
  | [], b, _ => b
  | cn :: t, b, s => if s < cn.2 then bestLoop t cn.1 cn.2 else bestLoop t b s

/-- The `analyze`'s category result: count matches per category (in object
order, skipping `general`), keep the positive counts in insertion
order, and fold the strict-improvement loop from `('general', 0)`. -/
def analyzeCategory (prompt : String) : IntentCategory :=
  let counts := intentCategoriesOrder.map (fun c => (c, matchCount prompt c))
  let matched := counts.filter (fun cn => 0 < cn.2)
  bestLoop matched .general 0

/-- Defined from the amended claim's words, for comparison with
`analyzeCategory`: the first category (in pattern order) attaining the
maximal match count, `general` when nothing matches. -/
def specFirstMaxCategory (prompt : String) : IntentCategory :=
  let m := (intentCategoriesOrder.map (fun c => matchCount prompt c)).foldr max 0
  if m = 0 then .general
  else ((intentCategoriesOrder.find? (fun c => matchCount prompt c = m)).getD .general)

/-! ## Semantic index cache (`CacheManager`, `src/parser.ts`) -/

/-- Export entry of a `FileEntry` (only the `name` field is consulted by
the embedded operations). -/
structure ExportEntry where
  name : String
deriving DecidableEq, Repr

/-- Import entry of a `FileEntry` (fields consulted: `source`, `names`). -/
structure ImportEntry where
  source : String
  names : List String
deriving DecidableEq, Repr

/-- Component entry of a `FileEntry`. -/
structure ComponentEntry where
  name : String
deriving DecidableEq, Repr

/-- Persisted per-file entry.  Optional arrays of the source are
modelled as plain lists, matching the `xs || []` accesses that consume
them (and the truthiness of `[]` in the one `if (otherFile.imports)`
guard). -/
structure FileEntry where
  mtime : ℤ
  size : ℤ
  exports : List ExportEntry
  imports : List ImportEntry
  components : List ComponentEntry
  keywords : List String
deriving DecidableEq, Repr

/-- The persisted index (`CacheIndex`): the path→entry map in insertion
order plus the tech-stack string; the version / root / timestamp fields
are not consulted by the operations embedded here. -/
structure CacheIndex where
  files : List (String × FileEntry)
  techStack : String
deriving DecidableEq, Repr

/-- The `cache.files[p]` — object lookup. -/
def cacheLookup (c : CacheIndex) (p : String) : Option FileEntry :=
  (c.files.find? (fun kv => kv.1 = p)).map Prod.snd

/-- A file stat as consumed by `getStaleFiles` (`mtimeMs`, `size`). -/
structure FileStat where
  mtime : ℤ
  size : ℤ
deriving DecidableEq, Repr

/-- Result of `getStaleFiles`. -/
structure StaleResult where
  modified : List String
  added : List String
  deleted : List String
deriving DecidableEq, Repr

/-- The `getStaleFiles` loop: walk the current enumeration; a path with
no cache entry is `added`; one whose stat differs in mtime or size is
`modified` (a failed stat contributes nothing); every visited path with
an entry is removed from the remaining cached-path set. -/
def staleGo (c : CacheIndex) (stat : String → Option FileStat) :
    List String → List String → List String × List String × List String
  | [], remaining => ([], [], remaining)
  | p :: ps, remaining =>
    match cacheLookup c p with
    | none =>
      let r := staleGo c stat ps remaining
      (r.1, p :: r.2.1, r.2.2)
    | some entry =>
      let isModified := match stat p with
        | some st => decide (st.mtime ≠ entry.mtime ∨ st.size ≠ entry.size)
        | none => false
      let r := staleGo c stat ps (remaining.filter (fun q => q ≠ p))
      ((if isModified then p :: r.1 else r.1), r.2.1, r.2.2)

/-- The `getStaleFiles` — classify the current enumeration against the
cached index; `stat` is the file-system stat oracle. -/
def getStaleFiles (c : CacheIndex) (stat : String → Option FileStat)
    (currentFiles : List String) : StaleResult :=
  let cachedPaths := (c.files.map Prod.fst).dedup
  let r := staleGo c stat currentFiles cachedPaths
  ⟨r.1, r.2.1, r.2.2⟩

/-! ## Impact analyser (`src/impact-analyzer.ts`) -/

/-- Blast radius buckets. -/
inductive BlastRadius where
  | small | medium | large | critical
deriving DecidableEq, Repr

/-- Dependency-graph node: only the `dependents` list is consulted by
`analyzeImpact` (the builder's `imports`/`exports` fields are not). -/
structure GraphNode where
  dependents : List String
deriving DecidableEq, Repr

/-- The `DependencyGraph.nodes` as an association list. -/
structure DependencyGraph where
  nodes : List (String × GraphNode)
deriving DecidableEq, Repr

/-- The `graph.nodes.get(p)`. -/
def graphLookup (g : DependencyGraph) (p : String) : Option GraphNode :=
  (g.nodes.find? (fun kv => kv.1 = p)).map Prod.snd

/-- The `calculateBlastRadius` — capped weighted score and threshold bucket. -/
def calculateBlastRadius (directCount indirectCount testCount : ℕ) :
    BlastRadius × ℕ :=
  let score := min 100 (directCount * 10 + indirectCount * 3 + testCount * 2)
  let radius : BlastRadius :=
    if score < 20 then .small
    else if score < 50 then .medium
    else if score < 80 then .large
    else .critical
  (radius, score)

/-- Node `path.dirname` for forward-slash relative paths. -/
def pathDirname (p : String) : String :=
  if jsIncludes p "/" then
    let parts := splitChar '/' p.data
    let d := String.intercalate "/" ((parts.take (parts.length - 1)).map String.mk)
    if d = "" then "/" else d
  else "."

/-- Node `path.join(a, b)` for the relative segments used here
(a leading `"."` segment is dropped, as Node's normalisation does). -/
def pathJoin2 (a b : String) : String :=
  if a = "." then b else a ++ "/" ++ b

/-- Node `path.join(a, b, c)` likewise. -/
def pathJoin3 (a b c : String) : String :=
  pathJoin2 (pathJoin2 a b) c

/-- The candidate test-path patterns of `findRelatedTests`. -/
def testPatternPaths (filepath : String) : List String :=
  let baseName := getBaseName filepath
  let dir := pathDirname filepath
  let ext := pathExtname filepath
  [pathJoin2 dir (baseName ++ ".test" ++ ext),
   pathJoin2 dir (baseName ++ ".spec" ++ ext),
   pathJoin2 dir (baseName ++ ".e2e" ++ ext),
   pathJoin3 dir "__tests__" (baseName ++ ext),
   pathJoin3 dir "__tests__" (baseName ++ ".test" ++ ext),
   jsReplaceFirst (jsReplaceFirst filepath "/src/" "/tests/") ext (".test" ++ ext),
   jsReplaceFirst (jsReplaceFirst filepath "/lib/" "/tests/") ext (".test" ++ ext),
   pathJoin2 "tests" (pathBasenameExt filepath ext ++ ".test" ++ ext)]

/-- The `findRelatedTests` — naming-convention candidates present in the
file list (pushed once per pattern occurrence, so coinciding patterns
repeat), then any test/spec-named file whose base name contains the
primary's base name, deduplicated against the list so far. -/
def findRelatedTests (filepath : String) (allFiles : List String) : List String :=
  let fromPatterns := (testPatternPaths filepath).foldl
    (fun acc pat => if pat ∈ allFiles then acc ++ [pat] else acc) []
  let lowerBaseName := jsLower (getBaseName filepath)
  allFiles.foldl
    (fun acc file =>
      if (jsIncludes file "test" || jsIncludes file "spec") = true then
        let testBase := jsLower (getBaseName file)
        if (testBase = lowerBaseName ∨ jsIncludes testBase lowerBaseName = true) ∧
           file ∉ acc then acc ++ [file] else acc
      else acc) fromPatterns

/-- The `findRelatedConfig` — files containing a common config-name
fragment (case-insensitively), first five.  (The source computes a
`fileName` from its first argument but never consults it.) -/
def findRelatedConfig (_filepath : String) (allFiles : List String) : List String :=
  let pats := [".env", ".env.example", "package.json", "tsconfig.json",
               "next.config", "vite.config", "webpack.config"]
  ((allFiles.filter (fun f => pats.any (fun pat => jsIncludes (jsLower f) pat))).take 5)

/-- The indirect-dependents accumulation of `analyzeImpact`: walk the
direct dependents, collecting each of their dependents not yet seen and
different from the primary (`seen` starts as the direct set). -/
def indirectLoop (g : DependencyGraph) (filepath : String) :
    List String → List String → List String → List String × List String
  | [], indirect, seen => (indirect, seen)
  | dep :: rest, indirect, seen =>
    match graphLookup g dep with
    | none => indirectLoop g filepath rest indirect seen
    | some depNode =>
      let r := depNode.dependents.foldl
        (fun (acc : List String × List String) idep =>
          if idep ∉ acc.2 ∧ idep ≠ filepath then
            (acc.1 ++ [idep], acc.2 ++ [idep])
          else acc)
        (indirect, seen)
      indirectLoop g filepath rest r.1 r.2

/-- Direct dependents of a file (`node?.dependents || []`). -/
def directDependents (g : DependencyGraph) (filepath : String) : List String :=
  ((graphLookup g filepath).map (·.dependents)).getD []

/-- Indirect dependents as accumulated by `analyzeImpact`. -/
def indirectDependents (g : DependencyGraph) (filepath : String) : List String :=
  let direct := directDependents g filepath
  (indirectLoop g filepath direct [] direct).1

/-- Result record of `analyzeImpact`. -/
structure ImpactAnalysis where
  primary : String
  direct : List String
  indirect : List String
  tests : List String
  config : List String
  blastRadius : BlastRadius
  score : ℕ
  warnings : List String
deriving DecidableEq, Repr

/-- The `analyzeImpact` — dependents, related tests/config, blast radius
(computed from the *untruncated* counts), warnings, and the truncated
result lists. -/
def analyzeImpact (filepath : String) (g : DependencyGraph)
    (allFiles : List String) : ImpactAnalysis :=
  let direct := directDependents g filepath
  let indirect := indirectDependents g filepath
  let tests := findRelatedTests filepath allFiles
  let config := findRelatedConfig filepath allFiles
  let rs := calculateBlastRadius direct.length indirect.length tests.length
  let w1 : List String :=
    if direct.length = 0 ∧ ¬ (jsIncludes filepath "test" = true) then
      ["No files import this - might be unused (dead code)"] else []
  let w2 : List String :=
    if direct.length > 20 then
      ["High coupling: " ++ toString direct.length ++ " files depend on this"]
    else []
  let w3 : List String :=
    if tests.length = 0 ∧ ¬ (jsIncludes filepath "test" = true) ∧
       rs.1 ≠ BlastRadius.small then ["No tests found - changes are risky"] else []
  let w4 : List String :=
    if rs.1 = BlastRadius.critical then
      ["CRITICAL: Changes will affect many files - proceed with caution"] else []
  { primary := filepath
    direct := direct.take 20
    indirect := indirect.take 10
    tests := tests
    config := config.take 5
    blastRadius := rs.1
    score := rs.2
    warnings := w1 ++ w2 ++ w3 ++ w4 }

/-! ## Session manager (`src/session-manager.ts`) -/

/-- Per-path session record (`SessionFile`); the ISO `lastViewed`
timestamp is modelled by its epoch-milliseconds value. -/
structure SessionFileRec where
  viewCount : ℤ
  lastViewed : ℤ
  relevanceScore : ℚ
  blastRadius : Option BlastRadius
deriving DecidableEq, Repr

/-- One element of the `recordFileViews` argument. -/
structure ViewInput where
  path : String
  relevanceScore : ℚ
  blastRadius : Option BlastRadius
deriving DecidableEq, Repr

/-- The `viewedFiles` map of the active session. -/
abbrev ViewedFiles := List (String × SessionFileRec)

/-- One iteration of the `recordFileViews` loop. -/
def recordOneView (viewed : ViewedFiles) (file : ViewInput) (now : ℤ) : ViewedFiles :=
  match (viewed.find? (fun kv => kv.1 = file.path)).map Prod.snd with
  | some existing =>
    let updated : SessionFileRec :=
      { existing with
        viewCount := existing.viewCount + 1
        lastViewed := now
        blastRadius := match file.blastRadius with
          | some b => some b
          | none => existing.blastRadius }
    mapSetAssoc viewed file.path updated
  | none =>
    mapSetAssoc viewed file.path
      ⟨1, now, file.relevanceScore, file.blastRadius⟩

/-- The `recordFileViews` — merge view counts for every listed file. -/
def recordFileViews (viewed : ViewedFiles) (files : List ViewInput) (now : ℤ) :
    ViewedFiles :=
  files.foldl (fun v file => recordOneView v file now) viewed

/-- View count of a path in a session (`0` when never viewed). -/
def viewCountOf (viewed : ViewedFiles) (p : String) : ℤ :=
  (((viewed.find? (fun kv => kv.1 = p)).map Prod.snd).map (·.viewCount)).getD 0

/-- A boost candidate emitted by `getBoostCandidates`. -/
structure BoostCandidate where
  path : String
  boostFactor : ℤ
  reason : String
deriving DecidableEq, Repr

/-- The `getBoostCandidates` — one record per viewed file; view boost capped
at 50, plus 20 when last viewed within five minutes of `now`. -/
def getBoostCandidates (viewed : ViewedFiles) (now : ℤ) (sessionName : String) :
    List BoostCandidate :=
  viewed.map (fun kv =>
    let vc := kv.2.viewCount
    let viewBoost := min (vc * 10) 50
    let recencyBoost : ℤ := if now - kv.2.lastViewed < 5 * 60 * 1000 then 20 else 0
    { path := kv.1
      boostFactor := viewBoost + recencyBoost
      reason := "Previously viewed " ++ toString vc ++ "x in session \"" ++
        sessionName ++ "\"" })

/-! ## Smart filter (`SmartFilter.search`) -/

/-- Constraint kinds (`FilterConstraint.type`). -/
inductive CType where
  | usage | imp | exp | componentType | keyword | path
deriving DecidableEq, Repr

/-- A filter constraint: kind, keyword value, static cost and
selectivity estimate. -/
structure Constraint where
  ctype : CType
  value : String
  cost : ℚ
  selectivity : ℚ
deriving DecidableEq, Repr

/-- A matched source line record. -/
structure MatchedLine where
  line : ℕ
  content : String
  keyword : String
deriving DecidableEq, Repr

/-- A smart-filter scored file (`ScoredFile` of the smart filter;
`matchedLines` is `none` until exact-line detection assigns it). -/
structure SFFile where
  path : String
  score : ℚ
  matchedConstraints : List String
  isImported : Bool
  isExported : Bool
  matchedLines : Option (List MatchedLine)
deriving DecidableEq, Repr

/-- The `isLikelyComponentName` — uppercase initial or a UI-word fragment. -/
def isLikelyComponentName (kw : String) : Bool :=
  (match kw.data.head? with
   | some c => decide ('A' ≤ c ∧ c ≤ 'Z')
   | none => false) ||
  jsIncludes (jsLower kw) "component" || jsIncludes (jsLower kw) "button" ||
  jsIncludes (jsLower kw) "modal" || jsIncludes (jsLower kw) "form" ||
  jsIncludes (jsLower kw) "card"

/-- The `generateConstraints` — the usage constraint first, then per
keyword: import, export, (component-type when the keyword looks like a
component name), keyword and path constraints. -/
def generateConstraints (keywords : List String) : List Constraint :=
  ⟨.usage, "*", 8, 60/100⟩ ::
    keywords.flatMap (fun kw =>
      [⟨.imp, kw, 2, 85/100⟩, ⟨.exp, kw, 2, 90/100⟩] ++
      (if isLikelyComponentName kw then [⟨.componentType, kw, 5, 70/100⟩] else []) ++
      [⟨.keyword, kw, 1, 30/100⟩, ⟨.path, kw, 1, 50/100⟩])

/-- Cost-benefit ordering key of `sequenceConstraints`. -/
def seqScore (c : Constraint) : ℚ :=
  c.selectivity / (c.cost + 1/10)

/-- A learned search pattern (only the fields `sequenceConstraints`
reads). -/
structure SearchPattern where
  constraints : List Constraint
  usageCount : ℕ
deriving DecidableEq, Repr

/-- The `sequenceConstraints` — reuse a sufficiently-used learned pattern,
otherwise stable-sort by `selectivity / (cost + 0.1)` descending. -/
def sequenceConstraints (constraints : List Constraint) (_datasetSize : ℕ)
    (learned : Option SearchPattern) : List Constraint :=
  match learned with
  | some lp =>
    if lp.usageCount > 2 then lp.constraints
    else List.insertionSort (fun a b => seqScore b ≤ seqScore a) constraints
  | none => List.insertionSort (fun a b => seqScore b ≤ seqScore a) constraints

/-- The `checkFileUsage` — a file counts as used when it has exports and
some cached file's import mentions its extension-free basename
(case-sensitively). -/
def checkFileUsage (filePath : String) (cache : Option CacheIndex) : Bool :=
  match cache with
  | none => false
  | some c =>
    match cacheLookup c filePath with
    | none => false
    | some fileData =>
      if fileData.exports.isEmpty then false
      else
        let fileName := pathBasenameExt filePath (pathExtname filePath)
        c.files.any (fun kv =>
          kv.2.imports.any (fun imp =>
            jsIncludes imp.source fileName ||
            imp.names.any (fun n => jsIncludes n fileName)))

/-- The `applyConstraint` — one constraint applied to every scored file. -/
def applyConstraint (scored : List SFFile) (c : Constraint)
    (cache : Option CacheIndex) : List SFFile :=
  let kw := c.value
  match c.ctype with
  | .imp =>
    scored.map (fun f =>
      match cache.bind (fun ci => cacheLookup ci f.path) with
      | none => f
      | some entry =>
        if entry.imports.any (fun imp =>
            jsIncludes (jsLower imp.source) (jsLower kw) ||
            imp.names.any (fun n => jsIncludes (jsLower n) (jsLower kw))) then
          { f with score := f.score + 20
                   matchedConstraints := f.matchedConstraints ++ ["imports:" ++ kw]
                   isImported := true }
        else f)
  | .exp =>
    scored.map (fun f =>
      match cache.bind (fun ci => cacheLookup ci f.path) with
      | none => f
      | some entry =>
        if entry.exports.any (fun e => jsIncludes (jsLower e.name) (jsLower kw)) then
          { f with score := f.score + 25
                   matchedConstraints := f.matchedConstraints ++ ["exports:" ++ kw]
                   isExported := true }
        else f)
  | .componentType =>
    scored.map (fun f =>
      match cache.bind (fun ci => cacheLookup ci f.path) with
      | none => f
      | some entry =>
        let fileName := pathBasenameExt f.path (pathExtname f.path)
        if entry.components.any (fun comp =>
              jsIncludes (jsLower comp.name) (jsLower kw)) ∨
           (¬ entry.components.isEmpty ∧
              jsIncludes (jsLower fileName) (jsLower kw) = true) then
          { f with score := f.score + 15
                   matchedConstraints := f.matchedConstraints ++ ["component:" ++ kw] }
        else f)
  | .keyword =>
    scored.map (fun f =>
      match cache.bind (fun ci => cacheLookup ci f.path) with
      | none => f
      | some entry =>
        if entry.keywords.any (fun k => jsIncludes (jsLower k) (jsLower kw)) then
          { f with score := f.score + 5
                   matchedConstraints := f.matchedConstraints ++ ["keyword:" ++ kw] }
        else f)
  | .path =>
    scored.map (fun f =>
      let fileName := pathBasenameExt f.path (pathExtname f.path)
      if jsLower fileName = jsLower kw then
        { f with score := f.score + 100
                 matchedConstraints := f.matchedConstraints ++ ["exact-file:" ++ kw] }
      else if jsIncludes (jsLower f.path) (jsLower kw) then
        { f with score := f.score + 3
                 matchedConstraints := f.matchedConstraints ++ ["path:" ++ kw] }
      else f)
  | .usage =>
    scored.map (fun f =>
      if checkFileUsage f.path cache then
        { f with score := f.score + 30
                 matchedConstraints := f.matchedConstraints ++ ["actively-used"] }
      else
        { f with score := f.score - 50
                 matchedConstraints := f.matchedConstraints ++ ["unused-file"] })

/-- Initial scored map of `applyConstraints` (a `Map` keyed by path, so
duplicate input paths collapse to their first position). -/
def initScored (files : List String) : List SFFile :=
  files.foldl
    (fun acc file =>
      if acc.any (fun f => f.path = file) then acc
      else acc ++ [⟨file, 0, [], false, false, none⟩]) []

/-- The early-termination test after each constraint: at least five
files and the fifth-highest score above 50. -/
def fiveAbove50 (scored : List SFFile) : Bool :=
  let top := List.insertionSort (fun a b : ℚ => b ≤ a) (scored.map (·.score))
  match top.drop 4 with
  | [] => false
  | t :: _ => decide (t > 50)

/-- The `applyConstraints` loop with early termination. -/
def applyAll (cache : Option CacheIndex) :
    List Constraint → List SFFile → List SFFile
  | [], scored => scored
  | c :: cs, scored =>
    let scored' := applyConstraint scored c cache
    if fiveAbove50 scored' then scored' else applyAll cache cs scored'

/-- The `getRecentlyModifiedFiles` — git-modified files (an oracle) plus
cached entries whose mtime is within the last ten minutes. -/
def recentlyModifiedFiles (cache : Option CacheIndex) (gitModified : List String)
    (now : ℤ) : List String :=
  gitModified ++
    (match cache with
     | none => []
     | some c => (c.files.filter (fun kv => now - 10 * 60 * 1000 ≤ kv.2.mtime)).map
         Prod.fst)

/-- The recency boost of `search` step 4.5. -/
def recencyBoost (recent : List String) (f : SFFile) : SFFile :=
  if f.path ∈ recent then
    { f with score := f.score + 200
             matchedConstraints := f.matchedConstraints ++ ["recently-modified"] }
  else f

/-- The `boostContextFiles` — +150 and a `context-carryover` tag for every
scored file that appeared in the previous request. -/
def boostContextFiles (contextFiles : List String) (f : SFFile) : SFFile :=
  if f.path ∈ contextFiles then
    { f with score := f.score + 150
             matchedConstraints := f.matchedConstraints ++ ["context-carryover"] }
  else f

/-- The scored stage of `search` (steps 1–4.6): constraint generation,
sequencing, progressive application with early termination, recency
boost, and the context-carryover boost when context files are present.
`learned` is the learned-pattern lookup for the sorted keyword key,
`gitModified` and `now` the git/clock oracles. -/
def searchScored (allFiles keywords : List String) (cache : Option CacheIndex)
    (contextFiles : Option (List String)) (learned : Option SearchPattern)
    (gitModified : List String) (now : ℤ) : List SFFile :=
  let constraints := generateConstraints keywords
  let ordered := sequenceConstraints constraints allFiles.length learned
  let scored := applyAll cache ordered (initScored allFiles)
  let recent := recentlyModifiedFiles cache gitModified now
  let afterRecent := if recent.length > 0 then scored.map (recencyBoost recent)
                     else scored
  match contextFiles with
  | some cf => if cf.length > 0 then afterRecent.map (boostContextFiles cf)
               else afterRecent
  | none => afterRecent

/-- Step 5 of `search`: stable sort by score descending, top 50. -/
def searchTop (allFiles keywords : List String) (cache : Option CacheIndex)
    (contextFiles : Option (List String)) (learned : Option SearchPattern)
    (gitModified : List String) (now : ℤ) : List SFFile :=
  (List.insertionSort (fun a b : SFFile => b.score ≤ a.score)
    (searchScored allFiles keywords cache contextFiles learned gitModified now)).take 50

/-- Step 6 of `search`: exact-line detection on the top ten.  `detect`
is the oracle standing for `findExactLines` (which reads the file and
extracts up to three prioritised matching lines for the primary
keyword); it always assigns a — possibly empty — list. -/
def searchWithLines (allFiles keywords : List String) (cache : Option CacheIndex)
    (contextFiles : Option (List String)) (learned : Option SearchPattern)
    (gitModified : List String) (now : ℤ)
    (detect : String → List MatchedLine) : List SFFile :=
  let top := searchTop allFiles keywords cache contextFiles learned gitModified now
  (top.take 10).map (fun f => { f with matchedLines := some (detect f.path) }) ++
    top.drop 10

/-- The `search` — return the top-50 files that have matched lines, or,
when none do, the top five. -/
def smartSearch (allFiles keywords : List String) (cache : Option CacheIndex)
    (contextFiles : Option (List String)) (learned : Option SearchPattern)
    (gitModified : List String) (now : ℤ)
    (detect : String → List MatchedLine) : List SFFile :=
  let topResults :=
    searchWithLines allFiles keywords cache contextFiles learned gitModified now detect
  let filesWithMatches := topResults.filter (fun f => f.matchedLines.getD [] ≠ [])
  if filesWithMatches.length > 0 then filesWithMatches else topResults.take 5

/-! ## Scan pipeline (`scanner.ts`): context carryover and timeout -/

/-- The legacy `.mantic/session.json` pointer (`lastRequest`); only the
fields the carryover logic reads. -/
structure LastRequest where
  keywords : List String
  topFiles : List String
deriving DecidableEq, Repr

/-- Keyword overlap of the current query against the previous one:
the fraction of current keywords present (case-insensitively) among the
previous keywords. -/
def overlapPercent (prevKeywords currKeywords : List String) : ℚ :=
  let prevSet := prevKeywords.map jsLower
  let curr := currKeywords.map jsLower
  let overlapCount := (curr.filter (fun k => k ∈ prevSet)).length
  if curr.length > 0 then (overlapCount : ℚ) / (curr.length : ℚ) else 0

/-- The carryover decision of `scanProjectInternal`: above 70 % overlap
the previous request's files become the context files, with confidence
`0.8 + (overlap − 0.7)·0.5`; otherwise no context is carried. -/
def carryoverContext (lr : LastRequest) (currKeywords : List String) :
    Option (List String × ℚ) :=
  let ov := overlapPercent lr.keywords currKeywords
  if ov > 7/10 then some (lr.topFiles, 4/5 + (ov - 7/10) * (1/2)) else none

/-- A `ProjectContext` (the fields populated by the embedded paths). -/
structure ProjectContext where
  techStack : String
  fileStructure : List String
  scoredFiles : List FileScore
  openFiles : List String
  fileLocations : List (String × List MatchedLine)
deriving DecidableEq, Repr

/-- The intent-filtering branch of `scanProjectInternal` (the part the
context-carryover claims are about): run the smart filter with the
carried-over context files, then either restrict the file list to the
context files (high-confidence follow-up) or keep every
positive-scoring file. -/
def scanIntentBranch (files keywords : List String) (cache : CacheIndex)
    (session : Option LastRequest) (learned : Option SearchPattern)
    (gitModified : List String) (now : ℤ)
    (detect : String → List MatchedLine) (maxFiles : ℕ) : ProjectContext :=
  let ctx := session.bind (fun lr => carryoverContext lr keywords)
  let contextFiles := ctx.map Prod.fst
  let scoredFiles :=
    smartSearch files keywords (some cache) contextFiles learned gitModified now detect
  let outFiles : List String :=
    match ctx with
    | some (cf, conf) =>
      if cf.length > 0 ∧ conf > 3/4 then
        ((scoredFiles.filter (fun f : SFFile => f.score > 0 ∧ f.path ∈ cf)).map (·.path))
      else ((scoredFiles.filter (fun f : SFFile => f.score > 0)).map (·.path))
    | none => ((scoredFiles.filter (fun f : SFFile => f.score > 0)).map (·.path))
  let fileLocations :=
    ((scoredFiles.filter
        (fun f => f.score > 0 ∧ f.matchedLines.getD [] ≠ [])).take 10).map
      (fun f => (f.path, f.matchedLines.getD []))
  { techStack := cache.techStack
    fileStructure := outFiles.take maxFiles
    scoredFiles := (scoredFiles.take maxFiles).map
      (fun sf => ⟨sf.path, sf.score, sf.matchedConstraints⟩)
    openFiles := []
    fileLocations := fileLocations }

/-- The empty result `scanProject` substitutes on a timeout. -/
def emptyProjectContext : ProjectContext :=
  ⟨"Unknown", [], [], [], []⟩

/-- The `Promise.race` of the internal scan against the timeout timer:
whichever settles first wins, so a scan running longer than the timeout
is replaced by the timer's rejection. -/
def promiseRaceScan (durationMs timeoutMs : ℤ)
    (internal : Except String ProjectContext) : Except String ProjectContext :=
  if durationMs > timeoutMs then
    .error ("Scan timeout after " ++ toString timeoutMs ++ "ms")
  else internal

/-- The `scanProject` — race the internal scan against the timeout and map
any error whose message mentions `timeout` to the empty result.
`durationMs` is how long the internal scan takes, `timeoutMs` the
configured timeout (`MANTIC_TIMEOUT`, default 30 000 ms), and
`internal` the internal scan's outcome. -/
def scanProject (durationMs timeoutMs : ℤ)
    (internal : Except String ProjectContext) : Except String ProjectContext :=
  match promiseRaceScan durationMs timeoutMs internal with
  | .ok ctx => .ok ctx
  | .error e => if jsIncludes e "timeout" then .ok emptyProjectContext else .error e

/-! ## Concrete fixtures used by counterexamples and witnesses -/

/-- A one-entry index whose `a.ts` entry records mtime 1 and size 10. -/
def c6cache : CacheIndex := ⟨[("a.ts", ⟨1, 10, [], [], [], []⟩)], "Unknown"⟩

/-- A stat oracle reporting `a.ts` with a changed mtime (2) and the
same size (10). -/
def c6stat : String → Option FileStat :=
  fun p => if p = "a.ts" then some ⟨2, 10⟩ else none

/-- A dependency graph where `a.ts` has one direct dependent `b.ts`,
which in turn has twelve dependents. -/
def c7graph : DependencyGraph :=
  ⟨[("a.ts", ⟨["b.ts"]⟩),
    ("b.ts", ⟨["c01.ts", "c02.ts", "c03.ts", "c04.ts", "c05.ts", "c06.ts",
               "c07.ts", "c08.ts", "c09.ts", "c10.ts", "c11.ts", "c12.ts"]⟩)]⟩

/-- An index with no parsed files. -/
def emptyCacheIndex : CacheIndex := ⟨[], "React"⟩

/-- A previous request sharing one of two current keywords (50 % overlap). -/
def lrLow : LastRequest := ⟨["login"], ["auth/login.ts"]⟩

/-- A previous request containing every current keyword (100 % overlap). -/
def lrHigh : LastRequest := ⟨["login", "redirect"], ["auth/login.ts"]⟩

/-- A non-empty scan result, used as the internal outcome a timeout
discards. -/
def someProjectContext : ProjectContext :=
  ⟨"React", ["a.ts"], [⟨"a.ts", 30, []⟩], [], []⟩

/-!
## Theorems

`Rat.add`/`mul`/`sub`/`inv` are `@[irreducible]` in Batteries purely to
keep them from unfolding accidentally; concrete evaluations below need
them to reduce, so they are made semireducible for this section (the
kernel ignores reducibility either way).
-/

section MainTheorems

attribute [local semireducible] Rat.add Rat.mul Rat.sub Rat.inv

/-! ### Order-theoretic helper lemmas for the rank comparator -/

theorem cmpNatList_eq_iff : ∀ a b : List ℕ, cmpNatList a b = .eq ↔ a = b := by
  intro a
  induction a with
  | nil => intro b; cases b <;> simp [cmpNatList]
  | cons x xs ih =>
    intro b
    cases b with
    | nil => simp [cmpNatList]
    | cons y ys =>
      simp only [cmpNatList]
      rcases lt_trichotomy x y with h | h | h
      · simp [h, Nat.not_lt_of_lt h]; omega
      · subst h; simp [lt_irrefl, ih]
      · rw [if_neg (by omega), if_pos h]; simp; omega

theorem cmpNatList_swap : ∀ a b : List ℕ, cmpNatList b a = (cmpNatList a b).swap := by
  intro a
  induction a with
  | nil => intro b; cases b <;> simp [cmpNatList, Ordering.swap]
  | cons x xs ih =>
    intro b
    cases b with
    | nil => simp [cmpNatList, Ordering.swap]
    | cons y ys =>
      simp only [cmpNatList]
      rcases lt_trichotomy x y with h | h | h
      · rw [if_pos h, if_neg (by omega), if_pos h]; rfl
      · subst h; simp [lt_irrefl, ih]
      · rw [if_pos h, if_neg (by omega), if_pos h]
        rfl

theorem cmpNatList_lt_trans :
    ∀ a b c : List ℕ, cmpNatList a b = .lt → cmpNatList b c = .lt →
      cmpNatList a c = .lt := by
  intro a
  induction a with
  | nil =>
    intro b c hab hbc
    cases b with
    | nil => exact hbc
    | cons y ys =>
      cases c with
      | nil => simp [cmpNatList] at hbc
      | cons z zs => simp [cmpNatList]
  | cons x xs ih =>
    intro b c hab hbc
    cases b with
    | nil => simp [cmpNatList] at hab
    | cons y ys =>
      cases c with
      | nil => simp [cmpNatList] at hbc
      | cons z zs =>
        simp only [cmpNatList] at hab hbc ⊢
        rcases lt_trichotomy x y with h1 | h1 | h1
        · rcases lt_trichotomy y z with h2 | h2 | h2
          · rw [if_pos (by omega)]
          · subst h2; rw [if_pos h1]
          · rw [if_pos h2, if_neg (by omega)] at hbc; exact absurd hbc (by simp)
        · subst h1
          rcases lt_trichotomy x z with h2 | h2 | h2
          · rw [if_pos h2]
          · subst h2; simp only [lt_irrefl, if_false] at hab hbc ⊢
            exact ih ys zs hab hbc
          · rw [if_neg (by omega), if_pos h2] at hbc; exact absurd hbc (by simp)
        · rw [if_neg (by omega), if_pos h1] at hab; exact absurd hab (by simp)

theorem localeLe_total (a b : String) : localeLe a b = true ∨ localeLe b a = true := by
  unfold localeLe
  rcases h : cmpNatList (localeKey a) (localeKey b) with _ | _ | _
  · left; simp [h]
  · left; simp [h]
  · right
    rw [cmpNatList_swap, h]
    simp [Ordering.swap]

theorem cmpNatList_not_gt (a b : List ℕ) (h : cmpNatList a b ≠ .gt) :
    cmpNatList a b = .lt ∨ a = b := by
  rcases hc : cmpNatList a b with _ | _ | _
  · left; rfl
  · right; exact (cmpNatList_eq_iff a b).mp hc
  · exact absurd hc h

theorem localeLe_trans (a b c : String) (hab : localeLe a b = true)
    (hbc : localeLe b c = true) : localeLe a c = true := by
  unfold localeLe at hab hbc ⊢
  simp only [ne_eq, decide_eq_true_eq] at hab hbc ⊢
  rcases cmpNatList_not_gt _ _ hab with h1 | h1 <;>
    rcases cmpNatList_not_gt _ _ hbc with h2 | h2
  · rw [cmpNatList_lt_trans _ _ _ h1 h2]; simp
  · rw [← h2, h1]; simp
  · rw [h1, h2]; simp
  · rw [h1, h2, (cmpNatList_eq_iff _ _).mpr rfl]; simp

instance rankLE_isTotal : IsTotal FileScore (fun a b => rankLE a b = true) := by
  constructor
  intro a b
  unfold rankLE
  by_cases h : a.score = b.score
  · rw [if_pos h, if_pos h.symm]
    exact localeLe_total a.path b.path
  · rw [if_neg h, if_neg (Ne.symm h)]
    rcases lt_or_gt_of_ne h with hlt | hlt
    · right; simpa using hlt
    · left; simpa using hlt

instance rankLE_isTrans : IsTrans FileScore (fun a b => rankLE a b = true) := by
  constructor
  intro a b c hab hbc
  unfold rankLE at hab hbc ⊢
  by_cases h1 : a.score = b.score <;> by_cases h2 : b.score = c.score
  · rw [if_pos h1] at hab
    rw [if_pos h2] at hbc
    rw [if_pos (h1.trans h2)]
    exact localeLe_trans _ _ _ hab hbc
  · rw [if_neg h2] at hbc
    rw [if_neg (fun hac => h2 (h1.symm.trans hac))]
    rw [h1]
    exact hbc
  · rw [if_neg h1] at hab
    rw [if_neg (fun hac => h1 (hac.trans h2.symm))]
    rw [← h2]
    exact hab
  · rw [if_neg h1] at hab
    rw [if_neg h2] at hbc
    simp only [decide_eq_true_eq] at hab hbc
    have hac : c.score < a.score := hbc.trans hab
    rw [if_neg (by exact fun h => absurd h.symm (ne_of_lt hac))]
    simpa using hac

/-- Every entry of `rankFiles`' output comes from the positive-score
filter step, so carries exactly the threshold-derived reasons. -/
theorem mem_rankFiles_shape (files keywords : List String) (intent : IntentCategory)
    (boosts : List (String × ℚ)) (e : FileScore)
    (he : e ∈ rankFiles files keywords intent boosts) :
    e.reasons = reasonsFor e.score ∧ 0 < e.score := by
  unfold rankFiles at he
  have h1 := List.mem_of_mem_take he
  rw [List.mem_insertionSort] at h1
  rw [List.mem_filterMap] at h1
  obtain ⟨a, _, ha⟩ := h1
  by_cases hpos : 0 < scoreUltraFast a keywords intent (buildBoostMap boosts)
  · rw [if_pos hpos] at ha
    cases ha
    exact ⟨rfl, hpos⟩
  · rw [if_neg hpos] at ha
    cases ha

/-! ### C1 — ranked output ordering and truncation -/

/-- C1 (amended).  For every input file list, keyword list, intent
and session-boost table, the structural scorer's ranked output is
sorted with primary key score descending and, on equal scores, path
ascending under the `localeCompare` collation the source's comparator
actually uses (modelled by `localeLe`), and at most 100 entries are
retained.  The byte-wise secondary key the claim states is refuted by
`rankFiles_tiebreak_not_bytewise`. -/
theorem rankFiles_sorted_top100 (files keywords : List String)
    (intent : IntentCategory) (boosts : List (String × ℚ)) :
    List.Sorted (fun a b => rankLE a b = true)
      (rankFiles files keywords intent boosts) ∧
    (rankFiles files keywords intent boosts).length ≤ 100 := by
  unfold rankFiles
  exact ⟨List.Pairwise.sublist (List.take_sublist _ _)
           (List.sorted_insertionSort _ _),
         List.length_take_le _ _⟩

/-- C1 counterexample.  On the equal-score files `B.ts` and `a.ts`
(score 30 each) the ranked output is `[a.ts, B.ts]` — the ICU
`localeCompare` order — which is byte-wise *descending* (`B` = 0x42 <
`a` = 0x61), so the output is not sorted with a byte-wise ascending
secondary key as the claim states. -/
theorem rankFiles_tiebreak_not_bytewise :
    ¬ List.Sorted specByteOrder (rankFiles ["B.ts", "a.ts"] [] .general []) := by
  decide

/-! ### C4 — reason tags -/

/-- C4 (amended).  The structural scorer does not tag individual
contributions: every ranked file's reasons list is exactly the
score-threshold tags — `filename-match` and `keyword-match` above score
100, `keyword-match` alone above 50, nothing otherwise. -/
theorem rankFiles_reasons_threshold (files keywords : List String)
    (intent : IntentCategory) (boosts : List (String × ℚ)) (e : FileScore)
    (he : e ∈ rankFiles files keywords intent boosts) :
    e.reasons = reasonsFor e.score :=
  (mem_rankFiles_shape files keywords intent boosts e he).1

/-- Witness for `rankFiles_reasons_threshold` at a concrete input. -/
theorem rankFiles_reasons_threshold_witness :
    (⟨"a.ts", 30, []⟩ : FileScore) ∈ rankFiles ["a.ts"] [] .general [] ∧
    (⟨"a.ts", 30, []⟩ : FileScore).reasons =
      reasonsFor (⟨"a.ts", 30, []⟩ : FileScore).score :=
  ⟨by decide, rankFiles_reasons_threshold ["a.ts"] [] .general [] _ (by decide)⟩

/-- C4 counterexample.  `a.ts` is canonical, so the canonical boost
contributes +30 — its entire (non-zero) score — yet its reasons list is
empty: non-zero contributions do not append tags. -/
theorem rankFiles_contribution_without_tag :
    ∃ e ∈ rankFiles ["a.ts"] [] IntentCategory.general [],
      e.score ≠ 0 ∧ e.reasons = [] ∧ isCanonical e.path = true := by
  decide

/-! ### C5 — intent category selection -/

theorem find?_filter_comm {α : Type} (q p : α → Bool) :
    ∀ (l : List α), (l.filter q).find? p = l.find? (fun a => q a && p a) := by
  intro l
  induction l with
  | nil => rfl
  | cons a t ih =>
    by_cases hq : q a
    · by_cases hp : p a
      · simp [List.filter_cons, hq, List.find?_cons, hp]
      · simp [List.filter_cons, hq, List.find?_cons, hp, ih]
    · simp [List.filter_cons, hq, List.find?_cons, ih]

theorem find?_congr_mem {α : Type} (p q : α → Bool) :
    ∀ (l : List α), (∀ x ∈ l, p x = q x) → l.find? p = l.find? q := by
  intro l
  induction l with
  | nil => intro _; rfl
  | cons a t ih =>
    intro h
    have ha := h a (List.mem_cons_self a t)
    by_cases hq : q a
    · simp [List.find?_cons, hq, ha ▸ hq]
    · have hp2 : p a = false := eq_false_of_ne_true (by rw [ha]; exact hq)
      have hq2 : q a = false := eq_false_of_ne_true hq
      simp only [List.find?_cons, hp2, hq2]
      exact ih (fun x hx => h x (List.mem_cons_of_mem a hx))

theorem le_foldrMax_of_mem {x : ℕ} : ∀ {l : List ℕ}, x ∈ l → x ≤ l.foldr max 0 := by
  intro l
  induction l with
  | nil => intro h; cases h
  | cons a t ih =>
    intro h
    rcases List.mem_cons.mp h with rfl | h
    · exact le_max_left _ _
    · exact le_trans (ih h) (le_max_right _ _)

theorem bestLoop_of_all_le :
    ∀ (l : List (IntentCategory × ℕ)) (b : IntentCategory) (s : ℕ),
      (∀ cn ∈ l, cn.2 ≤ s) → bestLoop l b s = b := by
  intro l
  induction l with
  | nil => intros; rfl
  | cons cn t ih =>
    intro b s h
    unfold bestLoop
    rw [if_neg (by have := h cn (List.mem_cons_self cn t); omega)]
    exact ih b s (fun x hx => h x (List.mem_cons_of_mem cn hx))

theorem bestLoop_eq_first_max :
    ∀ (l : List (IntentCategory × ℕ)) (b : IntentCategory) (s M : ℕ),
      M = (l.map Prod.snd).foldr max 0 → s < M →
      ∃ cn, l.find? (fun x => decide (M ≤ x.2)) = some cn ∧
        bestLoop l b s = cn.1 := by
  intro l
  induction l with
  | nil =>
    intro b s M hM hs
    simp only [List.map_nil, List.foldr_nil] at hM
    omega
  | cons cn t ih =>
    intro b s M hM hs
    simp only [List.map_cons, List.foldr_cons] at hM
    by_cases hlt : s < cn.2
    · by_cases hMt : (t.map Prod.snd).foldr max 0 ≤ cn.2
      · have hMcn : M = cn.2 := by rw [hM]; exact max_eq_left hMt
        refine ⟨cn, ?_, ?_⟩
        · rw [List.find?_cons_of_pos _ (by simp [hMcn])]
        · unfold bestLoop
          rw [if_pos hlt]
          exact bestLoop_of_all_le t cn.1 cn.2 (fun x hx =>
            le_trans (le_foldrMax_of_mem (List.mem_map_of_mem Prod.snd hx)) (by omega))
      · have hMt' : cn.2 < (t.map Prod.snd).foldr max 0 := by omega
        have hMeq : M = (t.map Prod.snd).foldr max 0 := by
          rw [hM]; exact max_eq_right (le_of_lt hMt')
        obtain ⟨cn2, hfind, hbl⟩ := ih cn.1 cn.2 M hMeq (by omega)
        refine ⟨cn2, ?_, ?_⟩
        · rw [List.find?_cons_of_neg _
            (by intro hcon; exact absurd (of_decide_eq_true hcon) (by omega))]
          exact hfind
        · unfold bestLoop
          rw [if_pos hlt]
          exact hbl
    · have h1 : cn.2 ≤ s := by omega
      have hMeq : M = (t.map Prod.snd).foldr max 0 := by
        rcases le_total cn.2 ((t.map Prod.snd).foldr max 0) with h | h
        · rw [hM]; exact max_eq_right h
        · rw [hM] at hs ⊢
          rw [max_eq_left h] at hs
          omega
      obtain ⟨cn2, hfind, hbl⟩ := ih b s M hMeq (by omega)
      refine ⟨cn2, ?_, ?_⟩
      · rw [List.find?_cons_of_neg _
          (by intro hcon; exact absurd (of_decide_eq_true hcon) (by omega))]
        exact hfind
      · unfold bestLoop
        rw [if_neg hlt]
        exact hbl

theorem foldrMax_filter_pos {α : Type} :
    ∀ (l : List (α × ℕ)),
      (((l.filter (fun cn => decide (0 < cn.2))).map Prod.snd).foldr max 0) =
        ((l.map Prod.snd).foldr max 0) := by
  intro l
  induction l with
  | nil => rfl
  | cons a t ih =>
    by_cases h : 0 < a.2
    · simp [List.filter_cons, h, ih]
    · have h0 : a.2 = 0 := by omega
      simp [List.filter_cons, h, ih, h0]

/-- C5 (amended).  The intent analyser picks the category with the
highest count of matching query tokens, with `general` as the fallback
when no category matches; ties are broken in favour of the category
that appears *first in the fixed pattern order* (UI, auth, styling,
performance, backend, testing, config) — not, as claimed, the category
with the longest matched token (refuted by
`analyze_tie_prefers_pattern_order`). -/
theorem analyzeCategory_first_max (prompt : String) :
    analyzeCategory prompt = specFirstMaxCategory prompt := by
  unfold analyzeCategory specFirstMaxCategory
  by_cases hM0 : ((intentCategoriesOrder.map (fun c => matchCount prompt c)).foldr max 0) = 0
  · rw [if_pos hM0]
    apply bestLoop_of_all_le
    intro cn hcn
    have hmem := (List.mem_filter.mp hcn).1
    have h2 : cn.2 ∈ (intentCategoriesOrder.map
        (fun c => (c, matchCount prompt c))).map Prod.snd :=
      List.mem_map_of_mem Prod.snd hmem
    rw [List.map_map] at h2
    have := le_foldrMax_of_mem (show cn.2 ∈ intentCategoriesOrder.map
      (fun c => matchCount prompt c) by simpa [Function.comp] using h2)
    omega
  · rw [if_neg hM0]
    have hMpos : 0 < ((intentCategoriesOrder.map
        (fun c => matchCount prompt c)).foldr max 0) := Nat.pos_of_ne_zero hM0
    obtain ⟨cn, hfind, hbl⟩ := bestLoop_eq_first_max
      ((intentCategoriesOrder.map (fun c => (c, matchCount prompt c))).filter
        (fun cn => decide (0 < cn.2)))
      .general 0 ((intentCategoriesOrder.map (fun c => matchCount prompt c)).foldr max 0)
      (by rw [foldrMax_filter_pos, List.map_map]; rfl) hMpos
    rw [hbl]
    rw [find?_filter_comm] at hfind
    rw [List.find?_map] at hfind
    have hcongr := find?_congr_mem
      (fun c => (decide (0 < matchCount prompt c) &&
        decide (((intentCategoriesOrder.map (fun c => matchCount prompt c)).foldr max 0)
          ≤ matchCount prompt c)))
      (fun c => decide (matchCount prompt c =
        ((intentCategoriesOrder.map (fun c => matchCount prompt c)).foldr max 0)))
      intentCategoriesOrder
      (by
        intro c hc
        have hle : matchCount prompt c ≤
            ((intentCategoriesOrder.map (fun c => matchCount prompt c)).foldr max 0) :=
          le_foldrMax_of_mem (List.mem_map_of_mem _ hc)
        rw [Bool.eq_iff_iff]
        simp only [Bool.and_eq_true, decide_eq_true_eq]
        omega)
    simp only [Function.comp_def] at hfind
    rw [hcongr] at hfind
    obtain ⟨c, hc1, hc2⟩ := Option.map_eq_some'.mp hfind
    rw [hc1, ← hc2]
    rfl

/-- C5 counterexample.  On `"nav database"` the categories UI and
backend tie at one matched token each; the claim's tie-break (longest
matched token) picks backend (`database`, 8 characters, vs `nav`, 3),
but the analyser returns UI, the earlier category in pattern order. -/
theorem analyze_tie_prefers_pattern_order :
    analyzeCategory "nav database" = IntentCategory.UI ∧
    matchedTokens "nav database" IntentCategory.UI = ["nav"] ∧
    matchedTokens "nav database" IntentCategory.backend = ["database"] ∧
    matchCount "nav database" IntentCategory.UI =
      matchCount "nav database" IntentCategory.backend ∧
    ("nav".length < "database".length) ∧
    analyzeCategory "nav database" ≠ IntentCategory.backend := by
  decide

/-! ### C6 — incremental change sets -/

theorem staleGo_added (c : CacheIndex) (stat : String → Option FileStat) :
    ∀ (ps rem : List String) (p : String),
      p ∈ (staleGo c stat ps rem).2.1 ↔ p ∈ ps ∧ cacheLookup c p = none := by
  intro ps
  induction ps with
  | nil => intro rem p; simp [staleGo]
  | cons p0 pt ih =>
    intro rem p
    rcases hl : cacheLookup c p0 with _ | entry
    · simp only [staleGo, hl]
      rw [List.mem_cons, ih rem p]
      constructor
      · rintro (rfl | ⟨hp, hnone⟩)
        · exact ⟨List.mem_cons_self _ _, hl⟩
        · exact ⟨List.mem_cons_of_mem _ hp, hnone⟩
      · rintro ⟨hmem, hnone⟩
        rcases List.mem_cons.mp hmem with rfl | hp
        · exact Or.inl rfl
        · exact Or.inr ⟨hp, hnone⟩
    · simp only [staleGo, hl]
      rw [ih (rem.filter (fun q => q ≠ p0)) p]
      constructor
      · rintro ⟨hp, hnone⟩
        exact ⟨List.mem_cons_of_mem _ hp, hnone⟩
      · rintro ⟨hmem, hnone⟩
        rcases List.mem_cons.mp hmem with rfl | hp
        · rw [hl] at hnone; cases hnone
        · exact ⟨hp, hnone⟩

theorem staleGo_modified (c : CacheIndex) (stat : String → Option FileStat) :
    ∀ (ps rem : List String) (p : String),
      p ∈ (staleGo c stat ps rem).1 → p ∈ ps ∧ cacheLookup c p ≠ none := by
  intro ps
  induction ps with
  | nil => intro rem p h; simp [staleGo] at h
  | cons p0 pt ih =>
    intro rem p
    rcases hl : cacheLookup c p0 with _ | entry
    · simp only [staleGo, hl]
      intro h
      obtain ⟨hp, hne⟩ := ih rem p h
      exact ⟨List.mem_cons_of_mem _ hp, hne⟩
    · simp only [staleGo, hl]
      intro h
      split at h
      · rcases List.mem_cons.mp h with rfl | h2
        · exact ⟨List.mem_cons_self _ _, by rw [hl]; exact Option.some_ne_none _⟩
        · obtain ⟨hp, hne⟩ := ih (rem.filter (fun q => q ≠ p0)) p h2
          exact ⟨List.mem_cons_of_mem _ hp, hne⟩
      · obtain ⟨hp, hne⟩ := ih (rem.filter (fun q => q ≠ p0)) p h
        exact ⟨List.mem_cons_of_mem _ hp, hne⟩

theorem staleGo_remaining (c : CacheIndex) (stat : String → Option FileStat) :
    ∀ (ps rem : List String) (p : String),
      p ∈ (staleGo c stat ps rem).2.2 ↔
        p ∈ rem ∧ ¬ (p ∈ ps ∧ cacheLookup c p ≠ none) := by
  intro ps
  induction ps with
  | nil => intro rem p; simp [staleGo]
  | cons p0 pt ih =>
    intro rem p
    rcases hl : cacheLookup c p0 with _ | entry
    · simp only [staleGo, hl]
      rw [ih rem p]
      constructor
      · rintro ⟨hr, hn⟩
        refine ⟨hr, ?_⟩
        rintro ⟨hmem, hlk⟩
        rcases List.mem_cons.mp hmem with rfl | hp
        · exact hlk hl
        · exact hn ⟨hp, hlk⟩
      · rintro ⟨hr, hn⟩
        exact ⟨hr, fun ⟨hp, hlk⟩ => hn ⟨List.mem_cons_of_mem _ hp, hlk⟩⟩
    · simp only [staleGo, hl]
      rw [ih (rem.filter (fun q => q ≠ p0)) p]
      rw [List.mem_filter]
      constructor
      · rintro ⟨⟨hr, hne⟩, hn⟩
        refine ⟨hr, ?_⟩
        rintro ⟨hmem, hlk⟩
        rcases List.mem_cons.mp hmem with rfl | hp
        · exact absurd rfl (of_decide_eq_true hne)
        · exact hn ⟨hp, hlk⟩
      · rintro ⟨hr, hn⟩
        have hne : p ≠ p0 := by
          rintro rfl
          exact hn ⟨List.mem_cons_self _ _, by rw [hl]; exact Option.some_ne_none _⟩
        exact ⟨⟨hr, decide_eq_true hne⟩,
          fun ⟨hp, hlk⟩ => hn ⟨List.mem_cons_of_mem _ hp, hlk⟩⟩

theorem cacheLookup_ne_none_iff (c : CacheIndex) (p : String) :
    cacheLookup c p ≠ none ↔ p ∈ c.files.map Prod.fst := by
  unfold cacheLookup
  constructor
  · intro h
    rcases hf : c.files.find? (fun kv => decide (kv.1 = p)) with _ | kv
    · rw [hf] at h; simp at h
    · have hkv := List.mem_of_find?_eq_some hf
      have hp := List.find?_some hf
      exact (of_decide_eq_true hp) ▸ List.mem_map_of_mem Prod.fst hkv
  · intro h hnone
    rw [Option.map_eq_none'] at hnone
    rw [List.find?_eq_none] at hnone
    obtain ⟨kv, hkv, rfl⟩ := List.mem_map.mp h
    exact absurd (decide_eq_true rfl) (hnone kv hkv)

/-- C6 (amended).  For every incremental scan, the added, modified
and deleted sets are pairwise disjoint; added ∪ deleted equals the
symmetric difference between the previously indexed path set and the
current enumeration; and the modified set lies inside their
*intersection* (paths present on both sides whose recorded mtime or
size changed) — not inside the symmetric difference, as the claim
states (refuted by `getStaleFiles_modified_not_in_symmdiff`). -/
theorem getStaleFiles_partition (c : CacheIndex) (stat : String → Option FileStat)
    (current : List String) (p : String) :
    (¬ (p ∈ (getStaleFiles c stat current).modified ∧
        p ∈ (getStaleFiles c stat current).added)) ∧
    (¬ (p ∈ (getStaleFiles c stat current).modified ∧
        p ∈ (getStaleFiles c stat current).deleted)) ∧
    (¬ (p ∈ (getStaleFiles c stat current).added ∧
        p ∈ (getStaleFiles c stat current).deleted)) ∧
    ((p ∈ (getStaleFiles c stat current).added ∨
      p ∈ (getStaleFiles c stat current).deleted) ↔
        ((p ∈ current ∧ p ∉ c.files.map Prod.fst) ∨
         (p ∈ c.files.map Prod.fst ∧ p ∉ current))) ∧
    (p ∈ (getStaleFiles c stat current).modified →
      p ∈ current ∧ p ∈ c.files.map Prod.fst) := by
  have hadd := staleGo_added c stat current ((c.files.map Prod.fst).dedup) p
  have hmod := staleGo_modified c stat current ((c.files.map Prod.fst).dedup) p
  have hrem := staleGo_remaining c stat current ((c.files.map Prod.fst).dedup) p
  have hkeys := cacheLookup_ne_none_iff c p
  unfold getStaleFiles
  simp only [List.mem_dedup] at hrem
  refine ⟨?_, ?_, ?_, ?_, ?_⟩
  · rintro ⟨h1, h2⟩
    exact (hmod h1).2 (hadd.mp h2).2
  · rintro ⟨h1, h2⟩
    exact (hrem.mp h2).2 ⟨(hmod h1).1, (hmod h1).2⟩
  · rintro ⟨h1, h2⟩
    exact (hkeys.mpr (hrem.mp h2).1) (hadd.mp h1).2
  · constructor
    · rintro (h | h)
      · exact Or.inl ⟨(hadd.mp h).1, fun hk => by
          have := (hadd.mp h).2
          exact (hkeys.mpr hk) this⟩
      · refine Or.inr ⟨(hrem.mp h).1, fun hc => ?_⟩
        exact (hrem.mp h).2 ⟨hc, hkeys.mpr (hrem.mp h).1⟩
    · rintro (⟨hc, hk⟩ | ⟨hk, hc⟩)
      · left
        refine hadd.mpr ⟨hc, ?_⟩
        by_contra hne
        exact hk (hkeys.mp hne)
      · right
        exact hrem.mpr ⟨hk, fun ⟨hcur, _⟩ => hc hcur⟩
  · intro h
    exact ⟨(hmod h).1, hkeys.mp (hmod h).2⟩

/-- C6 counterexample.  With `a.ts` cached at mtime 1 and currently
present with mtime 2, `getStaleFiles` reports it as modified, so the
union of the three sets contains `a.ts` — but `a.ts` is in both the
index and the enumeration, hence not in their symmetric difference. -/
theorem getStaleFiles_modified_not_in_symmdiff :
    getStaleFiles c6cache c6stat ["a.ts"] = ⟨["a.ts"], [], []⟩ ∧
    ¬ (∀ p : String,
        (p ∈ (getStaleFiles c6cache c6stat ["a.ts"]).modified ∨
         p ∈ (getStaleFiles c6cache c6stat ["a.ts"]).added ∨
         p ∈ (getStaleFiles c6cache c6stat ["a.ts"]).deleted) ↔
          ((p ∈ ["a.ts"] ∧ p ∉ c6cache.files.map Prod.fst) ∨
           (p ∈ c6cache.files.map Prod.fst ∧ p ∉ ["a.ts"]))) :=
  ⟨by decide, fun h => absurd (h "a.ts") (by decide)⟩

/-! ### C7 — blast radius -/

/-- C7 (amended).  The impact score is
`min(100, 10·direct + 3·indirect + 2·tests)` computed from the
*untruncated* dependent counts (the returned lists are then truncated
to 20 direct / 10 indirect entries), and the bucket thresholds are
small < 20 ≤ medium < 50 ≤ large < 80 ≤ critical.  Computing the score
from the truncated counts, as the claim reads, fails — see
`analyzeImpact_score_untruncated`. -/
theorem analyzeImpact_score_and_buckets (f : String) (g : DependencyGraph)
    (allFiles : List String) :
    (analyzeImpact f g allFiles).score =
      min 100 ((directDependents g f).length * 10 +
        (indirectDependents g f).length * 3 +
        (findRelatedTests f allFiles).length * 2) ∧
    (analyzeImpact f g allFiles).direct.length ≤ 20 ∧
    (analyzeImpact f g allFiles).indirect.length ≤ 10 ∧
    ((analyzeImpact f g allFiles).blastRadius =
      if (analyzeImpact f g allFiles).score < 20 then BlastRadius.small
      else if (analyzeImpact f g allFiles).score < 50 then BlastRadius.medium
      else if (analyzeImpact f g allFiles).score < 80 then BlastRadius.large
      else BlastRadius.critical) :=
  ⟨rfl, List.length_take_le _ _, List.length_take_le _ _, rfl⟩

/-- C7 counterexample.  With one direct dependent that itself has
twelve dependents, the score is `min(100, 10 + 36) = 46` — computed
from all twelve indirect dependents — while the formula over the
returned (truncated) lists gives `min(100, 10 + 30) = 40`. -/
theorem analyzeImpact_score_untruncated :
    (analyzeImpact "a.ts" c7graph []).score = 46 ∧
    (analyzeImpact "a.ts" c7graph []).direct.length = 1 ∧
    (analyzeImpact "a.ts" c7graph []).indirect.length = 10 ∧
    (analyzeImpact "a.ts" c7graph []).tests.length = 0 ∧
    (analyzeImpact "a.ts" c7graph []).score ≠
      min 100 ((analyzeImpact "a.ts" c7graph []).direct.length * 10 +
        (analyzeImpact "a.ts" c7graph []).indirect.length * 3 +
        (analyzeImpact "a.ts" c7graph []).tests.length * 2) := by
  decide

/-! ### C8 / C9 — session view counts and boost factors -/

theorem find_mapReplace_other {α : Type} (k p : String) (v : α) (hp : p ≠ k) :
    ∀ (m : List (String × α)),
      ((m.map (fun kv => if kv.1 = k then (k, v) else kv)).find?
        (fun kv => kv.1 = p)) = m.find? (fun kv => kv.1 = p) := by
  intro m
  induction m with
  | nil => rfl
  | cons a t ih =>
    rw [List.map_cons]
    by_cases ha : a.1 = k
    · rw [if_pos ha]
      have h1 : ¬ ((k, v) : String × α).1 = p := fun h => hp h.symm
      have h2 : ¬ a.1 = p := fun h => hp (ha ▸ h : k = p).symm
      simp only [List.find?_cons, decide_eq_false h1, decide_eq_false h2]
      exact ih
    · rw [if_neg ha]
      by_cases hap : a.1 = p
      · simp only [List.find?_cons, decide_eq_true hap]
      · simp only [List.find?_cons, decide_eq_false hap]
        exact ih

theorem find_mapReplace_self {α : Type} (k : String) (v : α) :
    ∀ (m : List (String × α)), m.any (fun kv => kv.1 = k) = true →
      ((m.map (fun kv => if kv.1 = k then (k, v) else kv)).find?
        (fun kv => kv.1 = k)) = some (k, v) := by
  intro m
  induction m with
  | nil => intro h; cases h
  | cons a t ih =>
    intro h
    rw [List.map_cons]
    by_cases ha : a.1 = k
    · rw [if_pos ha]
      simp [List.find?_cons]
    · rw [if_neg ha]
      simp only [List.find?_cons, decide_eq_false ha]
      refine ih ?_
      rcases List.any_eq_true.mp h with ⟨kv, hkv, hk⟩
      rcases List.mem_cons.mp hkv with rfl | hkv
      · exact absurd (of_decide_eq_true hk) ha
      · exact List.any_eq_true.mpr ⟨kv, hkv, hk⟩

theorem find_singleton_other {α : Type} (k p : String) (v : α) (hp : p ≠ k) :
    ([(k, v)] : List (String × α)).find? (fun kv => kv.1 = p) = none := by
  have h1 : ¬ ((k, v) : String × α).1 = p := fun h => hp h.symm
  simp only [List.find?_cons, decide_eq_false h1]
  rfl

theorem find_none_of_any_false {α : Type} (k : String) :
    ∀ (m : List (String × α)), m.any (fun kv => kv.1 = k) = false →
      m.find? (fun kv => kv.1 = k) = none := by
  intro m
  induction m with
  | nil => intro _; rfl
  | cons a t ih =>
    intro h
    rw [List.any_cons] at h
    rcases Bool.or_eq_false_iff.mp h with ⟨ha, ht⟩
    simp only [List.find?_cons, ha]
    exact ih ht

theorem find_mapSetAssoc {α : Type} (m : List (String × α)) (k : String) (v : α)
    (p : String) :
    ((mapSetAssoc m k v).find? (fun kv => kv.1 = p)) =
      if p = k then
        (if m.any (fun kv => kv.1 = k) then
          (m.map (fun kv => if kv.1 = k then (k, v) else kv)).find?
            (fun kv => kv.1 = k)
         else some (k, v))
      else m.find? (fun kv => kv.1 = p) := by
  unfold mapSetAssoc
  by_cases hany : (m.any (fun kv => kv.1 = k)) = true
  · rw [if_pos hany, if_pos hany]
    by_cases hp : p = k
    · subst hp
      rw [if_pos rfl]
    · rw [if_neg hp]
      exact find_mapReplace_other k p v hp m
  · rw [if_neg hany, if_neg hany]
    by_cases hp : p = k
    · subst hp
      rw [if_pos rfl, List.find?_append,
        find_none_of_any_false p m (Bool.not_eq_true _ ▸ hany)]
      simp only [List.find?_cons, decide_eq_true (rfl : ((p, v) : String × α).1 = p)]
      rfl
    · rw [if_neg hp, List.find?_append, find_singleton_other k p v hp,
        Option.or_none]

theorem findVal_mapSetAssoc_self {α : Type} (m : List (String × α)) (k : String)
    (v : α) :
    ((mapSetAssoc m k v).find? (fun kv => kv.1 = k)) = some (k, v) := by
  rw [find_mapSetAssoc, if_pos rfl]
  by_cases hany : (m.any (fun kv => kv.1 = k)) = true
  · rw [if_pos hany]
    exact find_mapReplace_self k v m hany
  · rw [if_neg hany]

theorem findVal_mapSetAssoc_other {α : Type} (m : List (String × α)) (k : String)
    (v : α) (p : String) (hp : p ≠ k) :
    ((mapSetAssoc m k v).find? (fun kv => kv.1 = p)) =
      m.find? (fun kv => kv.1 = p) := by
  rw [find_mapSetAssoc, if_neg hp]

theorem viewCountOf_recordOneView (viewed : ViewedFiles) (file : ViewInput)
    (now : ℤ) (p : String) :
    viewCountOf (recordOneView viewed file now) p =
      if p = file.path then viewCountOf viewed p + 1 else viewCountOf viewed p := by
  unfold recordOneView viewCountOf
  rcases hl : viewed.find? (fun kv => kv.1 = file.path) with _ | kv
  · simp only [hl, Option.map_none']
    by_cases hp : p = file.path
    · subst hp
      rw [if_pos rfl, findVal_mapSetAssoc_self, hl]
      rfl
    · rw [if_neg hp, findVal_mapSetAssoc_other _ _ _ _ hp]
  · simp only [hl, Option.map_some']
    by_cases hp : p = file.path
    · subst hp
      rw [if_pos rfl, findVal_mapSetAssoc_self, hl]
      rfl
    · rw [if_neg hp, findVal_mapSetAssoc_other _ _ _ _ hp]

theorem viewCountOf_recordFileViews (files : List ViewInput) (viewed : ViewedFiles)
    (now : ℤ) (p : String) :
    viewCountOf (recordFileViews viewed files now) p =
      viewCountOf viewed p + ((files.filter (fun f => f.path = p)).length : ℤ) := by
  induction files generalizing viewed with
  | nil => simp [recordFileViews]
  | cons f t ih =>
    simp only [recordFileViews, List.foldl_cons] at ih ⊢
    rw [ih (recordOneView viewed f now), viewCountOf_recordOneView]
    by_cases hp : p = f.path
    · rw [if_pos hp, List.filter_cons, if_pos (by simp [hp.symm]), List.length_cons]
      push_cast
      ring
    · rw [if_neg hp, List.filter_cons,
        if_neg (by simp only [decide_eq_true_eq]; exact fun h => hp h.symm)]

/-- C8 (confirmed).  Recording file views strictly increases the
stored view count of every recorded path (a first view sets it to 1),
and never decreases the view count of any path. -/
theorem recordFileViews_viewCount_increases (viewed : ViewedFiles)
    (files : List ViewInput) (now : ℤ) (p : String)
    (hp : p ∈ files.map ViewInput.path) :
    viewCountOf viewed p < viewCountOf (recordFileViews viewed files now) p ∧
    ∀ q, viewCountOf viewed q ≤ viewCountOf (recordFileViews viewed files now) q := by
  constructor
  · rw [viewCountOf_recordFileViews]
    obtain ⟨f, hf, hfp⟩ := List.mem_map.mp hp
    have hmem : f ∈ files.filter (fun f => f.path = p) :=
      List.mem_filter.mpr ⟨hf, decide_eq_true hfp⟩
    have hpos : 0 < (files.filter (fun f => f.path = p)).length :=
      List.length_pos.mpr (List.ne_nil_of_mem hmem)
    omega
  · intro q
    rw [viewCountOf_recordFileViews]
    have : (0:ℤ) ≤ ((files.filter (fun f => f.path = q)).length : ℤ) := Int.ofNat_nonneg _
    omega

/-- Witness for `recordFileViews_viewCount_increases`: one recorded
view of `a.ts` raises its count from 0 to 1. -/
theorem recordFileViews_viewCount_increases_witness :
    "a.ts" ∈ ([⟨"a.ts", 10, none⟩] : List ViewInput).map ViewInput.path ∧
    viewCountOf [] "a.ts" <
      viewCountOf (recordFileViews [] [⟨"a.ts", 10, none⟩] 5) "a.ts" :=
  ⟨by decide,
   (recordFileViews_viewCount_increases [] [⟨"a.ts", 10, none⟩] 5 "a.ts" (by decide)).1⟩

/-- C9 (confirmed).  `getBoostCandidates` emits one record per
viewed file, whose boost factor is `min(50, 10·viewCount)` plus 20 when
the file was viewed within the last five minutes and plus 0 otherwise. -/
theorem getBoostCandidates_formula (viewed : ViewedFiles) (now : ℤ)
    (name : String) (p : String) (r : SessionFileRec) (h : (p, r) ∈ viewed) :
    (⟨p, min 50 (10 * r.viewCount) +
        (if now - r.lastViewed < 5 * 60 * 1000 then 20 else 0),
      "Previously viewed " ++ toString r.viewCount ++ "x in session \"" ++
        name ++ "\""⟩ : BoostCandidate) ∈ getBoostCandidates viewed now name ∧
    (getBoostCandidates viewed now name).length = viewed.length := by
  constructor
  · have hmin : min (r.viewCount * 10) 50 = min 50 (10 * r.viewCount) := by
      rw [min_comm, mul_comm]
    have hm := List.mem_map_of_mem (fun kv : String × SessionFileRec =>
      ({ path := kv.1
         boostFactor := min (kv.2.viewCount * 10) 50 +
           (if now - kv.2.lastViewed < 5 * 60 * 1000 then (20:ℤ) else 0)
         reason := "Previously viewed " ++ toString kv.2.viewCount ++
           "x in session \"" ++ name ++ "\"" } : BoostCandidate)) h
    simpa [getBoostCandidates, hmin] using hm
  · simp [getBoostCandidates]

/-- Witness for `getBoostCandidates_formula`: a file viewed three times
and within five minutes gets boost `min(50, 30) + 20 = 50`. -/
theorem getBoostCandidates_formula_witness :
    ("a.ts", (⟨3, 0, 0, none⟩ : SessionFileRec)) ∈
      ([("a.ts", ⟨3, 0, 0, none⟩)] : ViewedFiles) ∧
    (⟨"a.ts", 50, "Previously viewed 3x in session \"s\""⟩ : BoostCandidate) ∈
      getBoostCandidates [("a.ts", ⟨3, 0, 0, none⟩)] 1000 "s" := by
  refine ⟨by decide, ?_⟩
  have h := (getBoostCandidates_formula [("a.ts", ⟨3, 0, 0, none⟩)] 1000 "s"
    "a.ts" ⟨3, 0, 0, none⟩ (by decide)).1
  simpa using h

/-! ### C2 — scan timeout -/

theorem listIncl_nil_true : ∀ (l : List Char), listIncl [] l = true := by
  intro l
  cases l <;> simp [listIncl, List.isPrefixOf]

theorem listIncl_append_left (n : List Char) :
    ∀ (h1 h2 : List Char), listIncl n h1 = true → listIncl n (h1 ++ h2) = true := by
  intro h1
  induction h1 with
  | nil =>
    intro h2 h
    simp only [listIncl, List.isEmpty_iff] at h
    subst h
    exact listIncl_nil_true h2
  | cons c t ih =>
    intro h2 h
    simp only [listIncl, Bool.or_eq_true] at h ⊢
    rcases h with h | h
    · left
      rw [List.isPrefixOf_iff_prefix] at h ⊢
      exact h.trans (List.prefix_append _ _)
    · right
      exact ih h2 h

theorem jsIncludes_append_left (a b n : String) (h : jsIncludes a n = true) :
    jsIncludes (a ++ b) n = true := by
  unfold jsIncludes at h ⊢
  rw [String.data_append]
  exact listIncl_append_left n.data a.data b.data h

/-- C2 (confirmed).  When the internal scan runs longer than the
configured timeout, `scanProject` returns the empty result — empty file
list and empty scored-file list — never a partial ranking. -/
theorem scanProject_timeout_returns_empty (durationMs timeoutMs : ℤ)
    (internal : Except String ProjectContext) (h : durationMs > timeoutMs) :
    scanProject durationMs timeoutMs internal = .ok emptyProjectContext ∧
    emptyProjectContext.fileStructure = [] ∧
    emptyProjectContext.scoredFiles = [] := by
  refine ⟨?_, rfl, rfl⟩
  have hmsg : jsIncludes ("Scan timeout after " ++ toString timeoutMs ++ "ms")
      "timeout" = true := by
    apply jsIncludes_append_left
    apply jsIncludes_append_left
    decide
  unfold scanProject promiseRaceScan
  rw [if_pos h]
  simp only [hmsg, if_true]

/-- Witness for `scanProject_timeout_returns_empty`: a 30 001 ms scan
against the default 30 000 ms timeout discards a non-empty internal
result. -/
theorem scanProject_timeout_returns_empty_witness :
    (30001 : ℤ) > 30000 ∧
    scanProject 30001 30000 (.ok someProjectContext) = .ok emptyProjectContext :=
  ⟨by decide,
   (scanProject_timeout_returns_empty 30001 30000 (.ok someProjectContext)
     (by decide)).1⟩

/-! ### C10 — matched-line filtering of search results -/

/-- C10 (confirmed).  After constraint scoring and taking the top 50
by score, if at least one file received matched-line records during
exact-line detection then every returned file has at least one matched
line; if none did, at most the top five scored files are returned. -/
theorem smartSearch_matched_line_filter (allFiles keywords : List String)
    (cache : Option CacheIndex) (contextFiles : Option (List String))
    (learned : Option SearchPattern) (gitModified : List String) (now : ℤ)
    (detect : String → List MatchedLine) :
    ((∃ f ∈ searchWithLines allFiles keywords cache contextFiles learned
        gitModified now detect, f.matchedLines.getD [] ≠ []) →
      ∀ f ∈ smartSearch allFiles keywords cache contextFiles learned
        gitModified now detect, f.matchedLines.getD [] ≠ []) ∧
    ((∀ f ∈ searchWithLines allFiles keywords cache contextFiles learned
        gitModified now detect, f.matchedLines.getD [] = []) →
      smartSearch allFiles keywords cache contextFiles learned gitModified
          now detect =
        (searchWithLines allFiles keywords cache contextFiles learned
          gitModified now detect).take 5 ∧
      (smartSearch allFiles keywords cache contextFiles learned gitModified
        now detect).length ≤ 5) ∧
    (searchWithLines allFiles keywords cache contextFiles learned gitModified
      now detect).length ≤ 50 := by
  refine ⟨?_, ?_, ?_⟩
  · rintro ⟨f0, hf0, hne⟩ f hf
    unfold smartSearch at hf
    rw [if_pos (List.length_pos.mpr (List.ne_nil_of_mem
      (List.mem_filter.mpr ⟨hf0, decide_eq_true hne⟩)))] at hf
    exact of_decide_eq_true (List.mem_filter.mp hf).2
  · intro hall
    have hfe : (searchWithLines allFiles keywords cache contextFiles learned
        gitModified now detect).filter (fun f => f.matchedLines.getD [] ≠ []) = [] :=
      List.filter_eq_nil_iff.mpr (fun f hf => by
        simp only [decide_eq_true_eq]
        intro hcon
        exact hcon (hall f hf))
    constructor
    · simp only [smartSearch]
      rw [hfe]
      rfl
    · simp only [smartSearch]
      rw [hfe]
      exact List.length_take_le _ _
  · unfold searchWithLines
    rw [List.length_append, List.length_map]
    have h1 := List.length_take_le 10 (searchTop allFiles keywords cache
      contextFiles learned gitModified now)
    have h2 : (searchTop allFiles keywords cache contextFiles learned
        gitModified now).length ≤ 50 := List.length_take_le _ _
    have h3 := List.length_drop 10 (searchTop allFiles keywords cache
      contextFiles learned gitModified now)
    omega

/-- Witness for `smartSearch_matched_line_filter`: with a detection
oracle returning no lines, the result is the top five. -/
theorem smartSearch_matched_line_filter_witness :
    smartSearch ["a.ts"] [] none none none [] 0 (fun _ => []) =
      (searchWithLines ["a.ts"] [] none none none [] 0 (fun _ => [])).take 5 ∧
    (smartSearch ["a.ts"] [] none none none [] 0 (fun _ => [])).length ≤ 5 :=
  (smartSearch_matched_line_filter ["a.ts"] [] none none none [] 0
    (fun _ => [])).2.1 (by decide)

/-! ### C3 — context carryover -/

theorem scanIntentBranch_eq_of_no_carryover (files keywords : List String)
    (cache : CacheIndex) (lr : LastRequest) (learned : Option SearchPattern)
    (gitModified : List String) (now : ℤ) (detect : String → List MatchedLine)
    (maxFiles : ℕ) (hcc : carryoverContext lr keywords = none) :
    scanIntentBranch files keywords cache (some lr) learned gitModified now
        detect maxFiles =
      scanIntentBranch files keywords cache none learned gitModified now
        detect maxFiles := by
  simp only [scanIntentBranch, Option.some_bind, Option.none_bind, hcc]

theorem searchScored_context_eq_map_boost (allFiles keywords : List String)
    (cache : Option CacheIndex) (cf : List String) (learned : Option SearchPattern)
    (gitModified : List String) (now : ℤ) (hne : cf ≠ []) :
    searchScored allFiles keywords cache (some cf) learned gitModified now =
      (searchScored allFiles keywords cache none learned gitModified now).map
        (boostContextFiles cf) := by
  simp only [searchScored]
  rw [if_pos (List.length_pos.mpr hne)]

/-- C3 (amended).  With a previous-session pointer present: when at
most 70 % of the new query's keywords appear among the prior query's
keywords, *no* context carryover happens at all (no +150 boost, no
`context-carryover` tag — the scan behaves exactly as with no prior
session).  When the overlap exceeds 70 %, the prior files' scores are
boosted by +150 with a `context-carryover` tag *and*, because the
derived confidence `0.8 + (overlap − 0.7)·0.5` then always exceeds
0.75, only the prior context files survive in the result set. -/
theorem scanIntentBranch_carryover (files keywords : List String)
    (cache : CacheIndex) (lr : LastRequest) (learned : Option SearchPattern)
    (gitModified : List String) (now : ℤ) (detect : String → List MatchedLine)
    (maxFiles : ℕ) :
    (overlapPercent lr.keywords keywords ≤ 7/10 →
      scanIntentBranch files keywords cache (some lr) learned gitModified now
          detect maxFiles =
        scanIntentBranch files keywords cache none learned gitModified now
          detect maxFiles) ∧
    (overlapPercent lr.keywords keywords > 7/10 → lr.topFiles ≠ [] →
      (carryoverContext lr keywords =
        some (lr.topFiles,
          4/5 + (overlapPercent lr.keywords keywords - 7/10) * (1/2)) ∧
       4/5 + (overlapPercent lr.keywords keywords - 7/10) * (1/2) > 3/4 ∧
       (∀ p ∈ (scanIntentBranch files keywords cache (some lr) learned
          gitModified now detect maxFiles).fileStructure, p ∈ lr.topFiles) ∧
       (∀ sf ∈ searchScored files keywords (some cache) none learned
          gitModified now,
         sf.path ∈ lr.topFiles →
           ({ sf with
              score := sf.score + 150
              matchedConstraints :=
                sf.matchedConstraints ++ ["context-carryover"] } : SFFile) ∈
             searchScored files keywords (some cache) (some lr.topFiles)
               learned gitModified now))) := by
  constructor
  · intro hov
    exact scanIntentBranch_eq_of_no_carryover files keywords cache lr learned
      gitModified now detect maxFiles
      (by unfold carryoverContext; rw [if_neg (not_lt.mpr hov)])
  · intro hov hne
    have hcc : carryoverContext lr keywords =
        some (lr.topFiles,
          4/5 + (overlapPercent lr.keywords keywords - 7/10) * (1/2)) := by
      unfold carryoverContext
      rw [if_pos hov]
    have hconf : 4/5 + (overlapPercent lr.keywords keywords - 7/10) * (1/2) >
        (3:ℚ)/4 := by
      have h1 : (0:ℚ) < overlapPercent lr.keywords keywords - 7/10 := by
        linarith
      linarith
    refine ⟨hcc, hconf, ?_, ?_⟩
    · intro p hp
      simp only [scanIntentBranch, Option.some_bind, hcc] at hp
      rw [if_pos ⟨List.length_pos.mpr hne, hconf⟩] at hp
      obtain ⟨f, hf, rfl⟩ := List.mem_map.mp (List.mem_of_mem_take hp)
      exact (of_decide_eq_true (List.mem_filter.mp hf).2).2
    · intro sf hsf hmem
      have hbv : boostContextFiles lr.topFiles sf =
          ({ sf with
             score := sf.score + 150
             matchedConstraints :=
               sf.matchedConstraints ++ ["context-carryover"] } : SFFile) := by
        unfold boostContextFiles
        rw [if_pos hmem]
      rw [searchScored_context_eq_map_boost files keywords (some cache)
        lr.topFiles learned gitModified now hne]
      exact hbv ▸ List.mem_map_of_mem (boostContextFiles lr.topFiles) hsf

/-- Witness for `scanIntentBranch_carryover`: at 100 % keyword overlap
only the prior context file survives. -/
theorem scanIntentBranch_carryover_witness :
    ∀ p ∈ (scanIntentBranch ["auth/login.ts", "auth/redirect.ts"] ["login"]
        emptyCacheIndex (some lrHigh) none [] 0 (fun _ => []) 300).fileStructure,
      p ∈ lrHigh.topFiles :=
  ((scanIntentBranch_carryover ["auth/login.ts", "auth/redirect.ts"] ["login"]
      emptyCacheIndex lrHigh none [] 0 (fun _ => []) 300).2
    (by decide) (by decide)).2.2.1

/-- C3 counterexample.  At 50 % keyword overlap (≤ 70 %) the claim
asserts a +150 boost with a `context-carryover` tag for the prior
files; instead no result file carries the tag and the scan result is
identical to one with no prior session at all. -/
theorem scanIntentBranch_low_overlap_no_boost :
    overlapPercent lrLow.keywords ["login", "redirect"] = 1/2 ∧
    (∀ sf ∈ (scanIntentBranch ["auth/login.ts", "auth/redirect.ts"]
        ["login", "redirect"] emptyCacheIndex (some lrLow) none [] 0
        (fun _ => []) 300).scoredFiles,
      "context-carryover" ∉ sf.reasons) ∧
    scanIntentBranch ["auth/login.ts", "auth/redirect.ts"] ["login", "redirect"]
        emptyCacheIndex (some lrLow) none [] 0 (fun _ => []) 300 =
      scanIntentBranch ["auth/login.ts", "auth/redirect.ts"] ["login", "redirect"]
        emptyCacheIndex none none [] 0 (fun _ => []) 300 := by
  refine ⟨by decide, by decide, ?_⟩
  exact scanIntentBranch_eq_of_no_carryover _ _ _ _ _ _ _ _ _ (by decide)

/-! ### Concrete instantiations of the universally quantified theorems -/

/-- Witness for `rankFiles_sorted_top100` at a concrete input. -/
theorem rankFiles_sorted_top100_witness :
    List.Sorted (fun a b => rankLE a b = true)
      (rankFiles ["B.ts", "a.ts"] [] .general []) ∧
    (rankFiles ["B.ts", "a.ts"] [] .general []).length ≤ 100 :=
  rankFiles_sorted_top100 ["B.ts", "a.ts"] [] .general []

/-- Witness for `analyzeCategory_first_max` at a concrete query. -/
theorem analyzeCategory_first_max_witness :
    analyzeCategory "authentication logic" =
      specFirstMaxCategory "authentication logic" :=
  analyzeCategory_first_max "authentication logic"

/-- Witness for `getStaleFiles_partition` at a concrete scan. -/
theorem getStaleFiles_partition_witness :
    ((("a.ts" ∈ (getStaleFiles c6cache c6stat ["a.ts"]).added ∨
       "a.ts" ∈ (getStaleFiles c6cache c6stat ["a.ts"]).deleted) ↔
        (("a.ts" ∈ ["a.ts"] ∧ "a.ts" ∉ c6cache.files.map Prod.fst) ∨
         ("a.ts" ∈ c6cache.files.map Prod.fst ∧ "a.ts" ∉ ["a.ts"]))) ∧
     ("a.ts" ∈ (getStaleFiles c6cache c6stat ["a.ts"]).modified →
       "a.ts" ∈ ["a.ts"] ∧ "a.ts" ∈ c6cache.files.map Prod.fst)) :=
  ⟨(getStaleFiles_partition c6cache c6stat ["a.ts"] "a.ts").2.2.2.1,
   (getStaleFiles_partition c6cache c6stat ["a.ts"] "a.ts").2.2.2.2⟩

/-- Witness for `analyzeImpact_score_and_buckets` at a concrete graph. -/
theorem analyzeImpact_score_and_buckets_witness :
    (analyzeImpact "a.ts" c7graph []).score =
      min 100 ((directDependents c7graph "a.ts").length * 10 +
        (indirectDependents c7graph "a.ts").length * 3 +
        (findRelatedTests "a.ts" []).length * 2) ∧
    (analyzeImpact "a.ts" c7graph []).direct.length ≤ 20 ∧
    (analyzeImpact "a.ts" c7graph []).indirect.length ≤ 10 ∧
    ((analyzeImpact "a.ts" c7graph []).blastRadius =
      if (analyzeImpact "a.ts" c7graph []).score < 20 then BlastRadius.small
      else if (analyzeImpact "a.ts" c7graph []).score < 50 then BlastRadius.medium
      else if (analyzeImpact "a.ts" c7graph []).score < 80 then BlastRadius.large
      else BlastRadius.critical) :=
  analyzeImpact_score_and_buckets "a.ts" c7graph []

end MainTheorems
